import Mathlib

/-
Verification of the clear-feed-backend repository.

Shallow embedding of the pure cores of the TypeScript source:
keyword matching (src/services/matcher.ts), scheduler due-filtering
(src/jobs/scheduledDigest.ts), briefing validation
(src/services/briefingGenerator.ts), CPE matching and exposure
classification (src/services/cpeMatcher.ts), remediation metrics
(src/services/remediationTracker.ts), the NVD rate limiter
(src/services/cveExtractor.ts) and the article clusterer
(src/services/grouper.ts).

JS numbers used for counts and timestamps are modelled as Nat/Int,
JS floating point arithmetic (IDF weights, similarity scores,
percentages) as exact real/rational arithmetic, JS Map/Set as
functions, association lists and finite sets.
-/

namespace ClearFeed

/-! ## Keyword matcher (src/services/matcher.ts) -/

/-- Word character class of the JS regex escape \ w: letters, digits, underscore. -/
def isWordChar (c : Char) : Bool :=
  (decide ('a' ≤ c) && decide (c ≤ 'z')) || (decide ('A' ≤ c) && decide (c ≤ 'Z')) ||
  (decide ('0' ≤ c) && decide (c ≤ '9')) || c == '_'

/-- Whether position p of the text holds a word character (out of range counts as non-word). -/
def wordAtPos (text : List Char) (p : Nat) : Bool :=
  match text.get? p with
  | some c => isWordChar c
  | none => false

/-- JS regex word boundary at position p: the word-ness of the character before p differs
from the word-ness of the character at p. -/
def boundaryAt (text : List Char) (p : Nat) : Bool :=
  (if p = 0 then false else wordAtPos text (p - 1)) != wordAtPos text p

/-- The escaped keyword, matched case-insensitively, occurs at position i with word
boundaries on both sides. Escaping makes every keyword character literal, so the pattern
matches the keyword itself. -/
def matchesAt (kw text : List Char) (i : Nat) : Bool :=
  decide (i + kw.length ≤ text.length) &&
  ((text.drop i).take kw.length).map Char.toLower == kw.map Char.toLower &&
  boundaryAt text i && boundaryAt text (i + kw.length)

/-- Embedding of regex.test for the pattern new RegExp("\ b" + escapeRegex(kw) + "\ b", "i"). -/
def regexTest (kw text : List Char) : Bool :=
  (List.range (text.length + 1)).any (fun i => matchesAt kw text i)

structure ScrapedArticle where
  title : String
  content : String
  url : String
deriving DecidableEq

structure MatchResult where
  article : ScrapedArticle
  matched : Bool
  matchedKeywords : List String
deriving DecidableEq

/-- The string scanned by the matcher: title + " " + content. -/
def searchTextOf (a : ScrapedArticle) : List Char :=
  (a.title ++ " " ++ a.content).data

/-- Embedding of matchArticles (matcher.ts lines 89-123): empty keyword or article list
short-circuits to unmatched results; otherwise each keyword pattern is tested against
the search text and the matching keywords collected in keyword order. -/
def matchArticles (articles : List ScrapedArticle) (keywords : List String) :
    List MatchResult :=
  if keywords.length = 0 ∨ articles.length = 0 then
    articles.map (fun a => ⟨a, false, []⟩)
  else
    articles.map (fun a =>
      let searchText := searchTextOf a
      let matchedKeywords := keywords.filter (fun kw => regexTest kw.data searchText)
      ⟨a, decide (0 < matchedKeywords.length), matchedKeywords⟩)

/-- Declarative reading of the word-boundary pattern used by the claim: some position
of the search text carries a case-insensitive occurrence of the keyword flanked by
word boundaries. -/
def WordBoundaryOccurs (kw : String) (text : List Char) : Prop :=
  ∃ i, i + kw.length ≤ text.length ∧
    ((text.drop i).take kw.length).map Char.toLower = kw.data.map Char.toLower ∧
    boundaryAt text i = true ∧ boundaryAt text (i + kw.length) = true

/-! ## Scheduler due filter (src/jobs/scheduledDigest.ts, runScheduledDigests) -/

/-- The FREQUENCY_MS table mapping frequency strings to milliseconds. -/
def FREQUENCY_MS : List (String × Nat) :=
  [("1h", 3600000), ("3h", 10800000), ("6h", 21600000), ("12h", 43200000),
   ("1d", 86400000), ("3d", 259200000), ("7d", 604800000)]

/-- Lookup in the frequency table; none models the falsy intervalMs guard. -/
def lookupFreq (s : String) : Option Nat :=
  (FREQUENCY_MS.find? (fun p => p.1 == s)).map Prod.snd

structure SchedUser where
  digestFrequency : String
  digestTime : String
  lastDigestAt : Option Int
deriving DecidableEq

/-- JS Number() conversion restricted to the strings that occur as the head of
digestTime.split(":"): a digit string converts to its value, the empty string to 0,
anything else to NaN (none). -/
def jsNumber (s : String) : Option Nat :=
  if s.data = [] then some 0
  else if s.data.all Char.isDigit then
    some (s.data.foldl (fun acc c => acc * 10 + (c.toNat - 48)) 0)
  else none

/-- Embedding of digestTime.split(":").map(Number)[0]: the first split field is the
prefix of the string before the first colon. -/
def preferredHour (digestTime : String) : Option Nat :=
  jsNumber ⟨digestTime.data.takeWhile (fun c => c != ':')⟩

/-- Embedding of the due filter in runScheduledDigests (dailyDigest scheduler lines
359-375): unknown frequency is never due; a user never digested before is due
immediately; otherwise for daily-or-longer intervals the current UTC hour must equal
the preferred hour, and in all cases the elapsed time must reach the interval. -/
def isDue (now : Int) (currentHour : Nat) (u : SchedUser) : Bool :=
  match lookupFreq u.digestFrequency with
  | none => false
  | some intervalMs =>
    match u.lastDigestAt with
    | none => true
    | some last =>
      let elapsed : Int := now - last
      if 86400000 ≤ intervalMs then
        match preferredHour u.digestTime with
        | some h => currentHour == h && decide ((intervalMs : Int) ≤ elapsed)
        | none => false
      else decide ((intervalMs : Int) ≤ elapsed)

/-- Modelled from the spec: the due condition exactly as the claim states it, a
conjunction of the three conditions with the hour gate applying whenever the interval
is a day or longer, independent of lastDigestAt. -/
def specDue (now : Int) (currentHour : Nat) (u : SchedUser) : Bool :=
  match lookupFreq u.digestFrequency with
  | none => false
  | some intervalMs =>
    (match u.lastDigestAt with
     | none => true
     | some last => decide ((intervalMs : Int) ≤ now - last)) &&
    (if 86400000 ≤ intervalMs then
       match preferredHour u.digestTime with
       | some h => currentHour == h
       | none => false
     else true)

/-! ## Briefing validation (src/services/briefingGenerator.ts, generateGroupBriefing)
and group update (src/jobs/dailyDigestV2.ts, groupAndBriefUngrouped) -/

/-- The JSON object parsed from the LLM response. A missing caseType field is none
(JS undefined is falsy, as is 0, both yielding the default); a missing string field
behaves like the empty string (both are falsy in the source checks). -/
structure RawBriefing where
  title : String
  synopsis : String
  executiveSummary : String
  impactAnalysis : String
  actionability : String
  caseType : Option Int
deriving DecidableEq

structure GroupBriefing where
  title : String
  synopsis : String
  executiveSummary : String
  impactAnalysis : String
  actionability : String
  caseType : Int
deriving DecidableEq

/-- Embedding of the response validation in generateGroupBriefing (lines 213-231):
none models every failure to obtain parsed JSON (missing key, empty content, API or
parse error); caseType is defaulted to 4 when falsy or out of the 1..4 range; an empty
title or synopsis makes the whole call fail. -/
def validateBriefing (response : Option RawBriefing) : Option GroupBriefing :=
  match response with
  | none => none
  | some p =>
    let ct : Int := match p.caseType with
      | none => 4
      | some v => if v < 1 ∨ 4 < v then 4 else v
    if p.title = "" ∨ p.synopsis = "" then none
    else some ⟨p.title, p.synopsis, p.executiveSummary, p.impactAnalysis,
               p.actionability, ct⟩

/-- The NewsGroup record fields touched or preserved by the briefing stage. -/
structure NewsGroup where
  title : String
  synopsis : Option String
  executiveSummary : Option String
  impactAnalysis : Option String
  actionability : Option String
  caseType : Option Int
  confidence : ℚ
deriving DecidableEq

/-- Embedding of the briefing persistence in groupAndBriefUngrouped (dailyDigestV2
lines 364-377): a null briefing leaves the group row untouched; a successful one
overwrites exactly the six narrative fields. -/
def applyBriefing (b : Option GroupBriefing) (g : NewsGroup) : NewsGroup :=
  match b with
  | none => g
  | some br =>
    { g with title := br.title, synopsis := some br.synopsis,
             executiveSummary := some br.executiveSummary,
             impactAnalysis := some br.impactAnalysis,
             actionability := some br.actionability,
             caseType := some br.caseType }

/-! ## Remediation metrics (src/services/remediationTracker.ts) -/

/-- ArticleCVE fields joined into an exposure row. -/
structure ACveInfo where
  cvssScore : Option ℚ
  inKEV : Bool
  kevDueDate : Option Int
deriving DecidableEq

/-- A UserCVEExposure row as read by computeRemediationMetrics. -/
structure ExposureRecord where
  exposureState : String
  firstDetectedAt : Int
  patchedAt : Option Int
  remediationDeadline : Option Int
  articleCve : Option ACveInfo
deriving DecidableEq

/-- Math.round(x * 10) / 10, rounding to one decimal (JS rounds half toward
positive infinity, as does Mathlib round). -/
def round1 (x : ℚ) : ℚ := ((round (x * 10) : ℤ) : ℚ) / 10

structure RemediationMetrics where
  totalVulnerable : Nat
  totalFixed : Nat
  totalNotApplicable : Nat
  totalIndirect : Nat
  totalOverdue : Nat
  patchRate : ℚ
  slaCompliance : ℚ
  avgMttrDays : Option ℚ
  medianMttrDays : Option ℚ
  kevExposureCount : Nat
  overdueKevCount : Nat
  criticalExposed : Nat
  avgCvssExposed : Option ℚ
deriving DecidableEq

/-- True when both timestamps exist and the patch landed on or before the deadline. -/
def patchedOnTimeB (e : ExposureRecord) : Bool :=
  match e.patchedAt, e.remediationDeadline with
  | some p, some d => decide (p ≤ d)
  | _, _ => false

/-- Embedding of computeRemediationMetrics (remediationTracker.ts lines 23-135) as a
pure function of the exposure rows and the current time. The truthiness test on
firstDetectedAt in the MTTR filter is always true since the column is non-null. -/
def computeRemediationMetrics (now : Int) (exposures : List ExposureRecord) :
    RemediationMetrics :=
  let vulnerable := exposures.filter (fun e => e.exposureState == "VULNERABLE")
  let fixed := exposures.filter (fun e => e.exposureState == "FIXED")
  let notApplicable := exposures.filter (fun e => e.exposureState == "NOT_APPLICABLE")
  let indirect := exposures.filter (fun e => e.exposureState == "INDIRECT")
  let mttrValues := (fixed.filter (fun e => e.patchedAt.isSome)).map
    (fun e => (((e.patchedAt.getD 0 - e.firstDetectedAt : Int)) : ℚ) / 86400000)
  let avgMttr : Option ℚ :=
    if 0 < mttrValues.length then some (mttrValues.sum / mttrValues.length) else none
  let sortedMttr := mttrValues.mergeSort (fun a b => decide (a ≤ b))
  let medianMttr : Option ℚ :=
    if 0 < sortedMttr.length then some (sortedMttr.getD (sortedMttr.length / 2) 0)
    else none
  let fixedWithDeadline := fixed.filter
    (fun e => e.remediationDeadline.isSome && e.patchedAt.isSome)
  let patchedOnTime := fixedWithDeadline.filter patchedOnTimeB
  let slaCompliance : ℚ :=
    if 0 < fixedWithDeadline.length then
      ((patchedOnTime.length : ℚ) / (fixedWithDeadline.length : ℚ)) * 100
    else 100
  let actionable := vulnerable.length + fixed.length
  let patchRate : ℚ :=
    if 0 < actionable then ((fixed.length : ℚ) / (actionable : ℚ)) * 100 else 0
  let kevExposed := vulnerable.filter (fun e => (e.articleCve.map ACveInfo.inKEV).getD false)
  let overdueKev := vulnerable.filter (fun e =>
    (e.articleCve.map ACveInfo.inKEV).getD false &&
    (e.remediationDeadline.map (fun d => decide (d < now))).getD false)
  let overdue := vulnerable.filter (fun e =>
    (e.remediationDeadline.map (fun d => decide (d < now))).getD false)
  let criticalExposed := vulnerable.filter (fun e =>
    (e.articleCve.bind ACveInfo.cvssScore).elim false (fun s => decide (9 ≤ s)))
  let exposedScores := vulnerable.filterMap (fun e => e.articleCve.bind ACveInfo.cvssScore)
  let avgCvssExposed : Option ℚ :=
    if 0 < exposedScores.length then some (exposedScores.sum / exposedScores.length)
    else none
  { totalVulnerable := vulnerable.length
    totalFixed := fixed.length
    totalNotApplicable := notApplicable.length
    totalIndirect := indirect.length
    totalOverdue := overdue.length
    patchRate := round1 patchRate
    slaCompliance := round1 slaCompliance
    avgMttrDays := avgMttr.map round1
    medianMttrDays := medianMttr.map round1
    kevExposureCount := kevExposed.length
    overdueKevCount := overdueKev.length
    criticalExposed := criticalExposed.length
    avgCvssExposed := avgCvssExposed.map round1 }

/-- Modelled from the spec: the slaCompliance formula exactly as the claim states it,
with denominator the FIXED rows that have a deadline (whether or not patchedAt is
set). -/
def claimSlaCompliance (exposures : List ExposureRecord) : ℚ :=
  let fixed := exposures.filter (fun e => e.exposureState == "FIXED")
  let denom := (fixed.filter (fun e => e.remediationDeadline.isSome)).length
  let num := (fixed.filter patchedOnTimeB).length
  if denom = 0 then 100 else round1 (((num : ℚ) / (denom : ℚ)) * 100)

/-! ## CPE matching and exposure classification
(src/services/cpeMatcher.ts, embedded from the source in entityExtractor's file) -/

/-- Lowercase a string and replace each maximal run of whitespace by one underscore,
as vendor.toLowerCase().replace of the whitespace class by underscore does. -/
def collapseWsAux : Bool → List Char → List Char
  | _, [] => []
  | inWs, c :: cs =>
    if c.isWhitespace then
      if inWs then collapseWsAux true cs
      else '_' :: collapseWsAux true cs
    else c.toLower :: collapseWsAux false cs

def normName (s : String) : String := ⟨collapseWsAux false s.data⟩

/-- JS String.split on a single-character separator. -/
def splitOnChar (sep : Char) : List Char → List (List Char)
  | [] => [[]]
  | c :: cs =>
    let rest := splitOnChar sep cs
    if c = sep then [] :: rest
    else
      match rest with
      | [] => [[c]]
      | r :: rs => (c :: r) :: rs

structure ParsedCPE where
  part : String
  vendor : String
  product : String
  version : String
deriving DecidableEq

/-- Embedding of parseCPE: split on colons, require at least 6 fields starting with
cpe:2.3; an empty sixth field (falsy in JS) becomes the wildcard. -/
def parseCPE (cpe : String) : Option ParsedCPE :=
  let parts := (splitOnChar ':' cpe.data).map (fun l => (⟨l⟩ : String))
  if parts.length < 6 then none
  else if parts.getD 0 "" ≠ "cpe" ∨ parts.getD 1 "" ≠ "2.3" then none
  else some ⟨parts.getD 2 "", parts.getD 3 "",
             parts.getD 4 "",
             if parts.getD 5 "" = "" then "*" else parts.getD 5 ""⟩

inductive MatchLevel where
  | exact : MatchLevel
  | product : MatchLevel
  | vendor : MatchLevel
deriving DecidableEq

/-- A TechStackItem as consumed by the matcher; none and the empty string are both
falsy versions in the source. -/
structure TechItem where
  id : String
  vendor : String
  product : String
  version : Option String
deriving DecidableEq

/-- Embedding of matchCPE (lines 158-185): vendor must match the normalized item
vendor; product mismatch gives a vendor-level match; a missing or wildcard version
gives product; equal or prefix version gives exact, and a differing concrete version
falls back to product. -/
def matchCPE (techItem : TechItem) (cveCpe : String) : Option MatchLevel :=
  match parseCPE cveCpe with
  | none => none
  | some parsed =>
    if parsed.vendor ≠ normName techItem.vendor then none
    else if parsed.product ≠ normName techItem.product then some MatchLevel.vendor
    else
      match techItem.version with
      | none => some MatchLevel.product
      | some v =>
        if v = "" then some MatchLevel.product
        else if parsed.version = "*" then some MatchLevel.product
        else if parsed.version = v ∨ parsed.version.isPrefixOf v then some MatchLevel.exact
        else some MatchLevel.product

def matchRank : MatchLevel → Nat
  | MatchLevel.exact => 3
  | MatchLevel.product => 2
  | MatchLevel.vendor => 1

/-- Embedding of classifyExposure (lines 194-198). -/
def classifyExposure : Option MatchLevel → String
  | none => "NOT_APPLICABLE"
  | some MatchLevel.vendor => "INDIRECT"
  | some _ => "VULNERABLE"

/-- An ArticleCVE row as consumed by the batch matcher; a non-array cpeMatches JSON
value behaves as the empty list. -/
structure ACve where
  id : String
  cveId : String
  cpeMatches : List String
  kevDueDate : Option Int
deriving DecidableEq

structure ExposureCandidate where
  cveId : String
  articleCveId : String
  techStackItemId : Option String
  exposureState : String
  matchedCpe : Option String
  remediationDeadline : Option Int
deriving DecidableEq

/-- One step of the best-match scan: a new match replaces the current best only when
its rank is strictly greater (the source keeps the earliest best on ties). -/
def bestStep (cpe : String) (best : Option (MatchLevel × String × String))
    (item : TechItem) : Option (MatchLevel × String × String) :=
  match matchCPE item cpe with
  | none => best
  | some r =>
    match best with
    | none => some (r, item.id, cpe)
    | some b => if matchRank b.1 < matchRank r then some (r, item.id, cpe) else best

/-- The nested loop of matchCVEsAgainstStack over all CPE strings and stack items. -/
def bestMatchFold (stack : List TechItem) (cpes : List String) :
    Option (MatchLevel × String × String) :=
  cpes.foldl (fun best cpe => stack.foldl (bestStep cpe) best) none

/-- What matchCVEsAgainstStack emits for one first-occurrence CVE: the best match if
any, a bare NOT_APPLICABLE when the CVE has CPEs but nothing matched, nothing when it
has no CPEs. -/
def processOneCve (stack : List TechItem) (acve : ACve) : Option ExposureCandidate :=
  match bestMatchFold stack acve.cpeMatches with
  | some (r, itemId, cpe) =>
    some ⟨acve.cveId, acve.id, some itemId, classifyExposure (some r), some cpe,
          acve.kevDueDate⟩
  | none =>
    if 0 < acve.cpeMatches.length then
      some ⟨acve.cveId, acve.id, none, "NOT_APPLICABLE", none, none⟩
    else none

/-- The loop of matchCVEsAgainstStack with its seen set of already-visited cveIds. -/
def matchLoop (stack : List TechItem) : List ACve → List String → List ExposureCandidate
  | [], _ => []
  | acve :: rest, seen =>
    if acve.cveId ∈ seen then matchLoop stack rest seen
    else
      match processOneCve stack acve with
      | some c => c :: matchLoop stack rest (acve.cveId :: seen)
      | none => matchLoop stack rest (acve.cveId :: seen)

/-- Embedding of matchCVEsAgainstStack (lines 213-279): an empty tech stack returns
an empty result immediately; otherwise each distinct cveId is processed once. -/
def matchCVEsAgainstStack (techStack : List TechItem) (articleCves : List ACve) :
    List ExposureCandidate :=
  if techStack.length = 0 then [] else matchLoop techStack articleCves []

/-- The sublist of first occurrences per cveId, skipping an initial seen set: the
CVEs the loop actually processes. -/
def firstOccs : List ACve → List String → List ACve
  | [], _ => []
  | acve :: rest, seen =>
    if acve.cveId ∈ seen then firstOccs rest seen
    else acve :: firstOccs rest (acve.cveId :: seen)

/-- Rank of a best-match accumulator; the empty accumulator ranks below every match. -/
def rankOf : Option (MatchLevel × String × String) → Nat
  | none => 0
  | some b => matchRank b.1

/-! ## Retroactive exposure matching (cpeMatcher, retroactiveMatchForStackItem) and the
manual-override route (src/routes/exposure.ts, PUT /api/exposure/:cveId) -/

/-- A full UserCVEExposure row for one user; the table is keyed by cveId through the
userId_cveId unique constraint. -/
structure ExpoRow where
  cveId : String
  articleCveId : String
  techStackItemId : Option String
  exposureState : String
  matchedCpe : Option String
  remediationDeadline : Option Int
  autoClassified : Bool
  firstDetectedAt : Int
  patchedAt : Option Int
  notes : Option String
deriving DecidableEq

/-- The first CPE of the list that matches the stack item at exact or product level, as
scanned by the for-loop with its break; vendor-level matches are passed over. -/
def firstUpsertCpe (item : TechItem) : List String → Option (String × MatchLevel)
  | [] => none
  | cpe :: rest =>
    match matchCPE item cpe with
    | some r =>
      if r = MatchLevel.exact ∨ r = MatchLevel.product then some (cpe, r)
      else firstUpsertCpe item rest
    | none => firstUpsertCpe item rest

/-- The prisma upsert on userId_cveId inside the retroactive loop: an existing row keeps
its other fields and gets the new stack item, state, matched CPE and autoClassified=true;
a missing row is created with schema defaults (firstDetectedAt = now). -/
def retroUpsert (now : Int) (item : TechItem) (acve : ACve) (cpe : String)
    (r : MatchLevel) (tbl : String → Option ExpoRow) : String → Option ExpoRow :=
  fun c =>
    if c = acve.cveId then
      some (match tbl acve.cveId with
        | some old =>
          { old with techStackItemId := some item.id,
                     exposureState := classifyExposure (some r),
                     matchedCpe := some cpe, autoClassified := true }
        | none =>
          ⟨acve.cveId, acve.id, some item.id, classifyExposure (some r), some cpe,
           acve.kevDueDate, true, now, none, none⟩)
    else tbl c

/-- The loop of retroactiveMatchForStackItem: existingAuto is the autoClassified map
captured before the loop; seen deduplicates cveIds; a manually classified CVE
(autoClassified=false) is skipped before any CPE is examined. -/
def retroGo (now : Int) (item : TechItem) (existingAuto : String → Option Bool) :
    List ACve → List String → (String → Option ExpoRow) → (String → Option ExpoRow)
  | [], _, tbl => tbl
  | acve :: rest, seen, tbl =>
    if acve.cveId ∈ seen then retroGo now item existingAuto rest seen tbl
    else if existingAuto acve.cveId = some false then
      retroGo now item existingAuto rest (acve.cveId :: seen) tbl
    else
      match firstUpsertCpe item acve.cpeMatches with
      | some (cpe, r) =>
        retroGo now item existingAuto rest (acve.cveId :: seen)
          (retroUpsert now item acve cpe r tbl)
      | none => retroGo now item existingAuto rest (acve.cveId :: seen) tbl

/-- Embedding of retroactiveMatchForStackItem (lines 285-366) as its effect on the
user's exposure table; the returned created-count and the early returns on empty
article or CVE lists do not change the table and are omitted. -/
def retroactiveMatchForStackItem (now : Int) (item : TechItem) (acves : List ACve)
    (tbl : String → Option ExpoRow) : String → Option ExpoRow :=
  retroGo now item (fun c => (tbl c).map ExpoRow.autoClassified) acves [] tbl

/-- Embedding of the PUT /api/exposure/:cveId handler (exposure.ts lines 132-169): an
existing row gets the requested valid state with autoClassified=false, notes when
provided, and patchedAt stamped on a first transition to FIXED; a missing row or an
invalid state changes nothing. -/
def putExposureUpdate (now : Int) (cve : String) (newState : String)
    (notes : Option String) (tbl : String → Option ExpoRow) : String → Option ExpoRow :=
  fun c =>
    if c = cve then
      match tbl cve with
      | none => none
      | some old =>
        if newState ∈ ["VULNERABLE", "FIXED", "NOT_APPLICABLE", "INDIRECT"] then
          some { old with
            exposureState := newState,
            autoClassified := false,
            notes := (match notes with | some n => some n | none => old.notes),
            patchedAt :=
              if newState = "FIXED" ∧ old.patchedAt = none then some now
              else old.patchedAt }
        else some old
    else tbl c

/-! ## NVD rate limiter (src/services/cveExtractor.ts, class NVDRateLimiter)

The limiter is modelled as a trace function: the state is the recorded timestamp list
(oldest first), a call arrives at a logical time now and is admitted at the returned
time; enrichArticleCVEs routes calls strictly sequentially, so each request time is at
least every recorded timestamp. -/

def windowMs : Nat := 30000

def nvdCapacity (hasApiKey : Bool) : Nat := if hasApiKey then 50 else 5

/-- One execute call (lines 17-32): prune entries older than the window; when at
capacity wait until the oldest entry leaves the window plus the 100 ms margin (the
waitMs > 0 guard), prune again at the wake time, and record the admission time. -/
def rlStep (cap : Nat) (ts : List Nat) (now : Nat) : Nat × List Nat :=
  let live := ts.filter (fun t => now - t < windowMs)
  if cap ≤ live.length then
    match live with
    | [] => (now, live ++ [now])
    | oldest :: _ =>
      let wake := oldest + windowMs + 100
      let now2 := if now < wake then wake else now
      (now2, (live.filter (fun t => now2 - t < windowMs)) ++ [now2])
  else (now, live ++ [now])

/-- The admission times of a sequence of sequential calls at the given request times. -/
def rlRun (cap : Nat) : List Nat → List Nat → List Nat
  | _, [] => []
  | ts, r :: rs => (rlStep cap ts r).1 :: rlRun cap (rlStep cap ts r).2 rs

/-- Sequential-call discipline: each request arrives no earlier than every timestamp
already recorded (the caller awaits the previous call before issuing the next). -/
def seqOK (cap : Nat) : List Nat → List Nat → Bool
  | _, [] => true
  | ts, r :: rs => ts.all (fun t => t ≤ r) && seqOK cap (rlStep cap ts r).2 rs

/-- Membership of a timestamp in the half-open sliding window (wStart, wStart+30s]. -/
def inWindow (wStart t : Nat) : Bool :=
  decide (wStart < t) && decide (t ≤ wStart + windowMs)

/-! ## Article clusterer (src/services/grouper.ts)

The grouping bookkeeping (similarity pairs, greedy agglomeration with the size cap,
singleton completion, empty-group removal, size-descending order) is embedded in full;
group titles, confidences and dominant-term lists are narrative decoration not touched
by the claims and are not modelled. JS floating point is modelled as real arithmetic. -/

structure GArticle where
  id : String
  title : String
  publishedAt : Option Int
  entities : List (String × String)
  signals : List String
  matchedKeywords : List String
deriving DecidableEq

def strLower (s : String) : String := ⟨s.data.map Char.toLower⟩

/-- The deduplicated lowercased entity names of one article (JS Set semantics). -/
def entityNames (a : GArticle) : Finset String :=
  (a.entities.map (fun e => strLower e.2)).toFinset

def signalSlugs (a : GArticle) : Finset String := a.signals.toFinset

def keywordSet (a : GArticle) : Finset String :=
  (a.matchedKeywords.map strLower).toFinset

/-- Document frequency of a term over the per-article term sets. -/
def docFreq (docs : List (Finset String)) (t : String) : Nat :=
  docs.countP (fun d => decide (t ∈ d))

/-- Embedding of computeIDF's toIDF map (grouper.ts lines 178-187): a term present in
the map (document frequency at least 1) gets log(N/df)/log(N); absent terms are not in
the map. -/
noncomputable def idfOf (docs : List (Finset String)) (t : String) : Option ℝ :=
  if 0 < docFreq docs t then
    some (Real.log ((docs.length : ℝ) / (docFreq docs t : ℝ)) /
      Real.log (docs.length : ℝ))
  else none

/-- The weight used by weightedJaccard: idfWeights.get(item) with the 1.0 default. -/
noncomputable def idfWeight (docs : List (Finset String)) (t : String) : ℝ :=
  (idfOf docs t).getD 1

/-- Embedding of weightedJaccard (lines 249-272): weighted intersection over weighted
union, 0 when the union is empty or its weight is not positive. -/
noncomputable def weightedJaccard (w : String → ℝ) (A B : Finset String) : ℝ :=
  if A ∪ B = ∅ then 0
  else
    if 0 < (A ∪ B).sum w then ((A ∩ B).sum w) / ((A ∪ B).sum w) else 0

/-- Embedding of the temporal proximity term (lines 231-238). -/
noncomputable def temporalSim (a b : GArticle) : ℝ :=
  match a.publishedAt, b.publishedAt with
  | some t1, some t2 =>
    if |(t1 : ℝ) - (t2 : ℝ)| / 3600000 ≤ 72 then
      1 - (|(t1 : ℝ) - (t2 : ℝ)| / 3600000) / 72
    else 0
  | _, _ => 0

/-- Embedding of computeSimilarity (lines 204-242). -/
noncomputable def computeSimilarity (arts : List GArticle) (a b : GArticle) : ℝ :=
  weightedJaccard (idfWeight (arts.map entityNames)) (entityNames a) (entityNames b)
      * 0.35 +
  weightedJaccard (idfWeight (arts.map signalSlugs)) (signalSlugs a) (signalSlugs b)
      * 0.30 +
  weightedJaccard (idfWeight (arts.map keywordSet)) (keywordSet a) (keywordSet b)
      * 0.15 +
  temporalSim a b * 0.20

def MAX_GROUP_SIZE : Nat := 10

def defaultGArticle : GArticle := ⟨"", "", none, [], [], []⟩

def getA (arts : List GArticle) (i : Nat) : GArticle :=
  (arts.get? i).getD defaultGArticle

/-- The pairs (i, j, score) with i < j whose similarity reaches the 0.3 threshold
(lines 47-55). -/
noncomputable def scoredPairs (arts : List GArticle) : List (Nat × Nat × ℝ) :=
  ((List.range arts.length).bind (fun i =>
    ((List.range arts.length).filter (fun j => decide (i < j))).map (fun j =>
      (i, j, computeSimilarity arts (getA arts i) (getA arts j))))).filter
    (fun p => decide ((0.3 : ℝ) ≤ p.2.2))

/-- The similarity pairs sorted by score descending (line 58). -/
noncomputable def sortedSimPairs (arts : List GArticle) : List (Nat × Nat) :=
  ((scoredPairs arts).mergeSort (fun p q => decide (q.2.2 ≤ p.2.2))).map
    (fun p => (p.1, p.2.1))

/-- State of the greedy clustering loop: the group array and the articleToGroup map. -/
structure GState where
  groups : List (Finset Nat)
  assign : Nat → Option Nat

/-- One iteration of the greedy loop (lines 64-100) on a similarity pair. -/
def gStep (s : GState) (p : Nat × Nat) : GState :=
  match s.assign p.1, s.assign p.2 with
  | none, none =>
    { groups := s.groups ++ [({p.1, p.2} : Finset Nat)],
      assign := fun k => if k = p.1 ∨ k = p.2 then some s.groups.length else s.assign k }
  | some gI, none =>
    if (s.groups.getD gI ∅).card < MAX_GROUP_SIZE then
      { groups := s.groups.set gI ((s.groups.getD gI ∅) ∪ {p.2}),
        assign := fun k => if k = p.2 then some gI else s.assign k }
    else s
  | none, some gJ =>
    if (s.groups.getD gJ ∅).card < MAX_GROUP_SIZE then
      { groups := s.groups.set gJ ((s.groups.getD gJ ∅) ∪ {p.1}),
        assign := fun k => if k = p.1 then some gJ else s.assign k }
    else s
  | some gI, some gJ =>
    if gI ≠ gJ ∧ (s.groups.getD gI ∅).card + (s.groups.getD gJ ∅).card ≤ MAX_GROUP_SIZE
    then
      let L := if (s.groups.getD gJ ∅).card ≤ (s.groups.getD gI ∅).card then gI else gJ
      let Sm := if (s.groups.getD gJ ∅).card ≤ (s.groups.getD gI ∅).card then gJ else gI
      { groups := (s.groups.set L ((s.groups.getD L ∅) ∪ (s.groups.getD Sm ∅))).set Sm ∅,
        assign := fun k => if k ∈ s.groups.getD Sm ∅ then some L else s.assign k }
    else s

def greedyLoop (pairs : List (Nat × Nat)) : GState :=
  pairs.foldl gStep ⟨[], fun _ => none⟩

/-- The index groups after the loop: unassigned indices become singletons (lines
103-107) and empty groups left by merging are skipped (line 112). -/
def greedyGroups (n : Nat) (pairs : List (Nat × Nat)) : List (Finset Nat) :=
  let s := greedyLoop pairs
  (s.groups ++
    (((List.range n).filter (fun i => (s.assign i).isNone)).map
      (fun i => ({i} : Finset Nat)))).filter (fun g => g ≠ ∅)

/-- Embedding of groupArticles (lines 37-154) restricted to group membership: each
output set holds the ids of one group's articles; output is ordered by group size
descending (line 151). The n = 0 and n = 1 shortcuts are lines 38-41. -/
noncomputable def groupArticles (arts : List GArticle) : List (Finset String) :=
  if arts.length = 0 then []
  else if arts.length = 1 then [{(getA arts 0).id}]
  else
    ((greedyGroups arts.length (sortedSimPairs arts)).mergeSort
      (fun g h => decide (h.card ≤ g.card))).map
      (fun g => g.image (fun i => (getA arts i).id))

/-- Loop invariant of the greedy clustering: the assignment map and the group array
agree (an index is assigned to g exactly when it lies in group g, hence in exactly one
group), every group respects the size cap, and groups hold article indices below n. -/
structure GInv (n : Nat) (s : GState) : Prop where
  coh : ∀ k g, s.assign k = some g ↔ ∃ G, s.groups.get? g = some G ∧ k ∈ G
  card_le : ∀ G ∈ s.groups, G.card ≤ MAX_GROUP_SIZE
  mem_lt : ∀ G ∈ s.groups, ∀ k ∈ G, k < n

theorem regexTest_iff (kw : String) (text : List Char) :
    regexTest kw.data text = true ↔ WordBoundaryOccurs kw text := by
  unfold regexTest WordBoundaryOccurs matchesAt
  rw [List.any_eq_true]
  constructor
  · rintro ⟨i, hi, h⟩
    simp only [Bool.and_eq_true, decide_eq_true_eq, beq_iff_eq] at h
    exact ⟨i, h.1.1.1, h.1.1.2, h.1.2, h.2⟩
  · rintro ⟨i, h1, h2, h3, h4⟩
    refine ⟨i, List.mem_range.mpr ?_, ?_⟩
    · have : kw.data.length ≤ i + kw.data.length := Nat.le_add_left _ _
      omega
    · simp only [Bool.and_eq_true, decide_eq_true_eq, beq_iff_eq]
      exact ⟨⟨⟨h1, h2⟩, h3⟩, h4⟩

/-- C8: matchArticles is a pure function; an empty keyword list yields matched=false and
matchedKeywords=[] for every article; otherwise the i-th result belongs to the i-th
article, its matchedKeywords are exactly the keywords whose case-insensitive
word-boundary pattern occurs in title + " " + content, and matched holds exactly when
matchedKeywords is non-empty. -/
theorem matchArticles_spec (articles : List ScrapedArticle) (keywords : List String) :
    (matchArticles articles keywords).length = articles.length ∧
    (keywords = [] → ∀ r ∈ matchArticles articles keywords,
        r.matched = false ∧ r.matchedKeywords = []) ∧
    (∀ i (h : i < articles.length) (h2 : i < (matchArticles articles keywords).length),
      ((matchArticles articles keywords).get ⟨i, h2⟩).article = articles.get ⟨i, h⟩ ∧
      (keywords ≠ [] →
        (∀ kw, kw ∈ ((matchArticles articles keywords).get ⟨i, h2⟩).matchedKeywords ↔
            kw ∈ keywords ∧ WordBoundaryOccurs kw (searchTextOf (articles.get ⟨i, h⟩))) ∧
        (((matchArticles articles keywords).get ⟨i, h2⟩).matched = true ↔
            ((matchArticles articles keywords).get ⟨i, h2⟩).matchedKeywords ≠ []))) := by
  unfold matchArticles
  by_cases hc : keywords.length = 0 ∨ articles.length = 0
  · rw [if_pos hc]
    refine ⟨List.length_map _ _, ?_, ?_⟩
    · intro _ r hr
      obtain ⟨a, _, rfl⟩ := List.mem_map.mp hr
      exact ⟨rfl, rfl⟩
    · intro i h h2
      have hk : keywords ≠ [] → False := by
        intro hne
        rcases hc with hc | hc
        · exact hne (List.length_eq_zero.mp hc)
        · omega
      constructor
      · simp [List.get_map]
      · intro hne; exact absurd hne (fun hne => hk hne)
  · rw [if_neg hc]
    push_neg at hc
    refine ⟨List.length_map _ _, ?_, ?_⟩
    · intro hk; exact absurd (List.length_eq_zero.mpr hk) hc.1
    · intro i h h2
      constructor
      · simp [List.get_map]
      · intro _
        constructor
        · intro kw
          simp only [List.get_map, List.mem_filter]
          rw [regexTest_iff]
        · simp only [List.get_map, decide_eq_true_eq]
          exact List.length_pos

/-- Closed witness for matchArticles_spec at a concrete article and keyword list. -/
theorem matchArticles_spec_witness :
    (["ransomware"] ≠ ([] : List String)) ∧ (0 < 1) ∧ 0 < 1 ∧
    (∀ kw, kw ∈ ((matchArticles [⟨"LockBit ransomware hits X", "body", "u"⟩] ["ransomware"]).get
          ⟨0, by decide⟩).matchedKeywords ↔
        kw ∈ ["ransomware"] ∧
          WordBoundaryOccurs kw (searchTextOf (([⟨"LockBit ransomware hits X", "body", "u"⟩] :
            List ScrapedArticle).get ⟨0, by decide⟩))) :=
  ⟨by decide, by decide, by decide,
    ((matchArticles_spec [⟨"LockBit ransomware hits X", "body", "u"⟩] ["ransomware"]).2.2
      0 (by decide) (by decide)).2 (by decide) |>.1⟩

/-- C3 counterexample: a user with daily frequency, preferred hour 9 and lastDigestAt
null is selected by the code at UTC hour 0, while the claimed conjunction of the three
conditions rejects them (the hour gate fails). -/
theorem isDue_ne_specDue_at_null_lastDigest :
    isDue 0 0 ⟨"1d", "09:00", none⟩ = true ∧
    specDue 0 0 ⟨"1d", "09:00", none⟩ = false := by
  constructor <;> decide

/-- C3 amended: runScheduledDigests treats a user as due exactly when digestFrequency
is a key of FREQUENCY_MS and either lastDigestAt is null (due immediately, with no hour
gate) or now - lastDigestAt reaches the interval and, for daily-or-longer intervals,
the current UTC hour equals the hour parsed from digestTime. -/
theorem isDue_spec (now : Int) (currentHour : Nat) (u : SchedUser) :
    isDue now currentHour u = true ↔
      ∃ intervalMs, lookupFreq u.digestFrequency = some intervalMs ∧
        (u.lastDigestAt = none ∨
          ∃ last, u.lastDigestAt = some last ∧ (intervalMs : Int) ≤ now - last ∧
            (86400000 ≤ intervalMs → preferredHour u.digestTime = some currentHour)) := by
  unfold isDue
  cases hf : lookupFreq u.digestFrequency with
  | none => simp [hf]
  | some intervalMs =>
    cases hl : u.lastDigestAt with
    | none => simp [hf, hl]
    | some last =>
      by_cases hd : 86400000 ≤ intervalMs
      · cases hp : preferredHour u.digestTime with
        | none => simp [hf, hl, hp, hd]
        | some ph =>
          simp only [hf, hl, hp, if_pos hd, Bool.and_eq_true, beq_iff_eq,
            decide_eq_true_eq, Option.some.injEq]
          constructor
          · rintro ⟨rfl, h2⟩
            exact ⟨intervalMs, rfl, Or.inr ⟨last, rfl, h2, fun _ => rfl⟩⟩
          · rintro ⟨iv, rfl, h⟩
            rcases h with h | ⟨last2, hl2, helapsed, hhour⟩
            · exact absurd h (by simp)
            · obtain rfl : last2 = last := hl2.symm
              exact ⟨(hhour hd).symm, helapsed⟩
      · simp only [hf, hl, if_neg hd, decide_eq_true_eq, Option.some.injEq]
        constructor
        · intro h
          exact ⟨intervalMs, rfl, Or.inr ⟨last, rfl, h, fun hd2 => absurd hd2 hd⟩⟩
        · rintro ⟨iv, rfl, h⟩
          rcases h with h | ⟨last2, hl2, helapsed, _⟩
          · exact absurd h (by simp)
          · obtain rfl : last2 = last := hl2.symm
            exact helapsed

/-- Closed witness for isDue_spec: a 3-hour user digested 4 hours ago is due. -/
theorem isDue_spec_witness :
    isDue 14400000 7 ⟨"3h", "09:00", some 0⟩ = true :=
  (isDue_spec 14400000 7 ⟨"3h", "09:00", some 0⟩).mpr
    ⟨10800000, by decide, Or.inr ⟨0, rfl, by decide, fun h => absurd h (by decide)⟩⟩

/-- C9: the briefing validator defaults caseType to 4 exactly when the field is missing
or outside the set 1..4 and keeps it otherwise; it fails exactly when the response is
unparseable or title or synopsis is empty; and only a successful briefing overwrites
the narrative fields of the group record, which is otherwise unchanged. -/
theorem generateGroupBriefing_spec :
    (∀ p : RawBriefing, p.title ≠ "" → p.synopsis ≠ "" →
      (p.caseType = none ∨ ∃ v, p.caseType = some v ∧ ¬(1 ≤ v ∧ v ≤ 4)) →
      ∃ b, validateBriefing (some p) = some b ∧ b.caseType = 4) ∧
    (∀ p : RawBriefing, ∀ v, p.title ≠ "" → p.synopsis ≠ "" →
      p.caseType = some v → 1 ≤ v → v ≤ 4 →
      ∃ b, validateBriefing (some p) = some b ∧ b.caseType = v) ∧
    (∀ r, validateBriefing r = none ↔
      (r = none ∨ ∃ p, r = some p ∧ (p.title = "" ∨ p.synopsis = ""))) ∧
    (∀ g, applyBriefing none g = g) ∧
    (∀ br g, applyBriefing (some br) g =
      ⟨br.title, some br.synopsis, some br.executiveSummary, some br.impactAnalysis,
       some br.actionability, some br.caseType, g.confidence⟩) := by
  refine ⟨?_, ?_, ?_, fun g => rfl, fun br g => rfl⟩
  · intro p ht hs hct
    simp only [validateBriefing]
    rw [if_neg (by tauto)]
    refine ⟨_, rfl, ?_⟩
    rcases hct with h | ⟨v, hv, hrange⟩
    · simp [h]
    · simp only [hv]
      rw [if_pos (by omega)]
  · intro p v ht hs hct h1 h4
    simp only [validateBriefing]
    rw [if_neg (by tauto)]
    refine ⟨_, rfl, ?_⟩
    simp only [hct]
    rw [if_neg (by omega)]
  · intro r
    cases r with
    | none => simp [validateBriefing]
    | some p =>
      simp only [validateBriefing]
      by_cases hts : p.title = "" ∨ p.synopsis = ""
      · rw [if_pos hts]
        simp [hts]
      · rw [if_neg hts]
        simp [hts]

/-- Closed witness for generateGroupBriefing_spec: an out-of-range caseType of 7 is
defaulted to 4 on an otherwise valid response. -/
theorem generateGroupBriefing_spec_witness :
    ("t" ≠ "") ∧ ("s" ≠ "") ∧
    ∃ b, validateBriefing (some ⟨"t", "s", "e", "i", "a", some 7⟩) = some b ∧
      b.caseType = 4 :=
  ⟨by decide, by decide,
    generateGroupBriefing_spec.1 ⟨"t", "s", "e", "i", "a", some 7⟩
      (by decide) (by decide) (Or.inr ⟨7, rfl, by omega⟩)⟩

/-- C5 counterexample: a single FIXED exposure carrying a deadline but no patchedAt.
The claimed formula has denominator 1 and numerator 0, yielding 0, while the code
requires patchedAt in the denominator filter, leaving it empty and yielding the
default 100. -/
theorem slaCompliance_ne_claim :
    (computeRemediationMetrics 0
      [⟨"FIXED", 0, none, some 0, none⟩] ).slaCompliance = 100 ∧
    claimSlaCompliance [⟨"FIXED", 0, none, some 0, none⟩] = 0 := by
  constructor
  · simp only [computeRemediationMetrics, List.filter, patchedOnTimeB, round1]
    norm_num
  · simp only [claimSlaCompliance, List.filter, patchedOnTimeB, round1]
    norm_num

/-- C5 amended: patchRate is round-to-one-decimal of fixed over vulnerable-plus-fixed
times 100 (0 on empty denominator); slaCompliance is round-to-one-decimal of
on-time-fixed over FIXED-rows-with-both-patchedAt-and-deadline times 100 (100 on empty
denominator); and every numeric output is rounded to 1 decimal: the remaining rational
outputs avgMttrDays, medianMttrDays and avgCvssExposed are round-to-one-decimal of
their unrounded aggregates, while the count outputs are integers, which rounding to
one decimal leaves unchanged. -/
theorem computeRemediationMetrics_spec (now : Int) (exposures : List ExposureRecord) :
    (computeRemediationMetrics now exposures).patchRate =
      (let nV := exposures.countP (fun e => e.exposureState == "VULNERABLE")
       let nF := exposures.countP (fun e => e.exposureState == "FIXED")
       if nV + nF = 0 then 0 else round1 (((nF : ℚ) / ((nV + nF : Nat) : ℚ)) * 100)) ∧
    (computeRemediationMetrics now exposures).slaCompliance =
      (let nD := exposures.countP (fun e =>
          e.exposureState == "FIXED" && e.remediationDeadline.isSome && e.patchedAt.isSome)
       let nT := exposures.countP (fun e => e.exposureState == "FIXED" && patchedOnTimeB e)
       if nD = 0 then 100 else round1 (((nT : ℚ) / (nD : ℚ)) * 100)) ∧
    ((computeRemediationMetrics now exposures).avgMttrDays =
      (let ms := (exposures.filter (fun e =>
            e.exposureState == "FIXED" && e.patchedAt.isSome)).map
          (fun e => (((e.patchedAt.getD 0 - e.firstDetectedAt : Int)) : ℚ) / 86400000)
       if ms.length = 0 then none else some (round1 (ms.sum / ms.length)))) ∧
    ((computeRemediationMetrics now exposures).medianMttrDays =
      (let ms := (exposures.filter (fun e =>
            e.exposureState == "FIXED" && e.patchedAt.isSome)).map
          (fun e => (((e.patchedAt.getD 0 - e.firstDetectedAt : Int)) : ℚ) / 86400000)
       if ms.length = 0 then none
       else some (round1 ((ms.mergeSort (fun a b => decide (a ≤ b))).getD
         ((ms.mergeSort (fun a b => decide (a ≤ b))).length / 2) 0)))) ∧
    ((computeRemediationMetrics now exposures).avgCvssExposed =
      (let scores := (exposures.filter
            (fun e => e.exposureState == "VULNERABLE")).filterMap
          (fun e => e.articleCve.bind ACveInfo.cvssScore)
       if scores.length = 0 then none
       else some (round1 (scores.sum / scores.length)))) := by
  have hr0 : round1 0 = 0 := by
    unfold round1; norm_num
  have hr100 : round1 100 = 100 := by
    norm_num [round1]
  have hswap : ∀ e : ExposureRecord,
      (e.patchedAt.isSome && (e.exposureState == "FIXED"))
      = (e.exposureState == "FIXED" && e.patchedAt.isSome) := by
    intro e
    rw [Bool.and_comm]
  have hD : ∀ e : ExposureRecord,
      ((e.remediationDeadline.isSome && e.patchedAt.isSome) && (e.exposureState == "FIXED"))
      = (e.exposureState == "FIXED" && e.remediationDeadline.isSome && e.patchedAt.isSome) := by
    intro e
    cases e.remediationDeadline.isSome <;> cases e.patchedAt.isSome <;>
      cases e.exposureState == "FIXED" <;> rfl
  have hOT : ∀ e : ExposureRecord,
      (patchedOnTimeB e &&
        (e.exposureState == "FIXED" && e.remediationDeadline.isSome && e.patchedAt.isSome))
      = (e.exposureState == "FIXED" && patchedOnTimeB e) := by
    intro e
    have hpt : patchedOnTimeB e = true →
        e.remediationDeadline.isSome = true ∧ e.patchedAt.isSome = true := by
      unfold patchedOnTimeB
      cases e.patchedAt <;> cases e.remediationDeadline <;> simp
    cases hb : patchedOnTimeB e
    · rw [Bool.false_and, Bool.and_false]
    · obtain ⟨h1, h2⟩ := hpt hb
      rw [h1, h2]
      cases e.exposureState == "FIXED" <;> rfl
  have hOT2 : ∀ e : ExposureRecord,
      ((e.exposureState == "FIXED" && e.remediationDeadline.isSome && e.patchedAt.isSome)
        && patchedOnTimeB e)
      = (e.exposureState == "FIXED" && patchedOnTimeB e) := by
    intro e
    rw [Bool.and_comm]
    exact hOT e
  refine ⟨?_, ?_, ?_, ?_, ?_⟩
  · simp only [computeRemediationMetrics, ← List.countP_eq_length_filter]
    by_cases h : exposures.countP (fun e => e.exposureState == "VULNERABLE") +
        exposures.countP (fun e => e.exposureState == "FIXED") = 0
    · rw [if_neg (by omega), if_pos h, hr0]
    · rw [if_pos (by omega), if_neg h]
  · simp only [computeRemediationMetrics, List.filter_filter,
      ← List.countP_eq_length_filter, hD, hOT, hOT2]
    by_cases h : exposures.countP (fun e =>
        e.exposureState == "FIXED" && e.remediationDeadline.isSome && e.patchedAt.isSome) = 0
    · rw [if_neg (by omega), if_pos h, hr100]
    · rw [if_pos (by omega), if_neg h]
  · simp only [computeRemediationMetrics, List.filter_filter, hswap]
    by_cases h : ((exposures.filter (fun e =>
        e.exposureState == "FIXED" && e.patchedAt.isSome)).map
        (fun e => (((e.patchedAt.getD 0 - e.firstDetectedAt : Int)) : ℚ) /
          86400000)).length = 0
    · rw [if_neg (by omega), if_pos h]
      rfl
    · rw [if_pos (by omega), if_neg h]
      rfl
  · simp only [computeRemediationMetrics, List.filter_filter, hswap]
    rw [(List.mergeSort_perm ((exposures.filter (fun e =>
        e.exposureState == "FIXED" && e.patchedAt.isSome)).map
        (fun e => (((e.patchedAt.getD 0 - e.firstDetectedAt : Int)) : ℚ) / 86400000))
        (fun a b => decide (a ≤ b))).length_eq]
    by_cases h : ((exposures.filter (fun e =>
        e.exposureState == "FIXED" && e.patchedAt.isSome)).map
        (fun e => (((e.patchedAt.getD 0 - e.firstDetectedAt : Int)) : ℚ) /
          86400000)).length = 0
    · rw [if_neg (by omega), if_pos h]
      rfl
    · rw [if_pos (by omega), if_neg h]
      rfl
  · simp only [computeRemediationMetrics]
    by_cases h : ((exposures.filter
        (fun e => e.exposureState == "VULNERABLE")).filterMap
        (fun e => e.articleCve.bind ACveInfo.cvssScore)).length = 0
    · rw [if_neg (by omega), if_pos h]
      rfl
    · rw [if_pos (by omega), if_neg h]
      rfl

theorem one_le_matchRank (r : MatchLevel) : 1 ≤ matchRank r := by
  cases r <;> decide

theorem rankOf_bestStep_ge (cpe : String) (acc : Option (MatchLevel × String × String))
    (item : TechItem) : rankOf acc ≤ rankOf (bestStep cpe acc item) := by
  unfold bestStep
  cases matchCPE item cpe with
  | none => exact le_refl _
  | some r =>
    cases acc with
    | none => exact Nat.zero_le _
    | some b =>
      dsimp only
      by_cases h : matchRank b.1 < matchRank r
      · rw [if_pos h]; exact Nat.le_of_lt h
      · rw [if_neg h]

theorem rankOf_innerFold_ge (cpe : String) (stack : List TechItem)
    (acc : Option (MatchLevel × String × String)) :
    rankOf acc ≤ rankOf (stack.foldl (bestStep cpe) acc) := by
  induction stack generalizing acc with
  | nil => exact le_refl _
  | cons item rest ih =>
    exact le_trans (rankOf_bestStep_ge cpe acc item) (ih (bestStep cpe acc item))

theorem rankOf_bestStep_ge_match (cpe : String) (acc : Option (MatchLevel × String × String))
    (item : TechItem) (r : MatchLevel) (h : matchCPE item cpe = some r) :
    matchRank r ≤ rankOf (bestStep cpe acc item) := by
  unfold bestStep
  rw [h]
  cases acc with
  | none => exact le_refl _
  | some b =>
    dsimp only
    by_cases hlt : matchRank b.1 < matchRank r
    · rw [if_pos hlt]; exact le_refl _
    · rw [if_neg hlt]; exact Nat.le_of_not_lt hlt

theorem rankOf_innerFold_ge_match (cpe : String) (stack : List TechItem)
    (acc : Option (MatchLevel × String × String)) :
    ∀ item ∈ stack, ∀ r, matchCPE item cpe = some r →
      matchRank r ≤ rankOf (stack.foldl (bestStep cpe) acc) := by
  induction stack generalizing acc with
  | nil => intro item h; exact absurd h (List.not_mem_nil item)
  | cons hd rest ih =>
    intro item hmem r hr
    rcases List.mem_cons.mp hmem with rfl | hmem2
    · exact le_trans (rankOf_bestStep_ge_match cpe acc item r hr)
        (rankOf_innerFold_ge cpe rest _)
    · exact ih (bestStep cpe acc hd) item hmem2 r hr

theorem bestStep_provenance (cpe : String) (acc : Option (MatchLevel × String × String))
    (item : TechItem) (b : MatchLevel × String × String)
    (h : bestStep cpe acc item = some b) :
    acc = some b ∨ (b.2.1 = item.id ∧ b.2.2 = cpe ∧ matchCPE item cpe = some b.1) := by
  unfold bestStep at h
  cases hm : matchCPE item cpe with
  | none => rw [hm] at h; exact Or.inl h
  | some r =>
    rw [hm] at h
    cases acc with
    | none =>
      dsimp only at h
      obtain rfl : (r, item.id, cpe) = b := by injection h
      exact Or.inr ⟨rfl, rfl, rfl⟩
    | some b0 =>
      dsimp only at h
      by_cases hlt : matchRank b0.1 < matchRank r
      · rw [if_pos hlt] at h
        obtain rfl : (r, item.id, cpe) = b := by injection h
        exact Or.inr ⟨rfl, rfl, rfl⟩
      · rw [if_neg hlt] at h
        exact Or.inl h

theorem innerFold_provenance (cpe : String) (stack : List TechItem)
    (acc : Option (MatchLevel × String × String)) (b : MatchLevel × String × String)
    (h : stack.foldl (bestStep cpe) acc = some b) :
    acc = some b ∨ ∃ item ∈ stack, b.2.1 = item.id ∧ b.2.2 = cpe ∧
      matchCPE item cpe = some b.1 := by
  induction stack generalizing acc with
  | nil => exact Or.inl h
  | cons hd rest ih =>
    rcases ih (bestStep cpe acc hd) h with hstep | ⟨item, hmem, hb⟩
    · rcases bestStep_provenance cpe acc hd b hstep with hacc | hhd
      · exact Or.inl hacc
      · exact Or.inr ⟨hd, List.mem_cons_self hd rest, hhd⟩
    · exact Or.inr ⟨item, List.mem_cons_of_mem hd hmem, hb⟩

theorem rankOf_outerFold_ge (stack : List TechItem) (cpes : List String)
    (acc : Option (MatchLevel × String × String)) :
    rankOf acc ≤ rankOf (cpes.foldl (fun best cpe => stack.foldl (bestStep cpe) best) acc) := by
  induction cpes generalizing acc with
  | nil => exact le_refl _
  | cons cpe rest ih =>
    exact le_trans (rankOf_innerFold_ge cpe stack acc) (ih _)

theorem rankOf_bestMatchFold_ge_match (stack : List TechItem) (cpes : List String)
    (acc : Option (MatchLevel × String × String)) :
    ∀ cpe ∈ cpes, ∀ item ∈ stack, ∀ r, matchCPE item cpe = some r →
      matchRank r ≤
        rankOf (cpes.foldl (fun best c => stack.foldl (bestStep c) best) acc) := by
  induction cpes generalizing acc with
  | nil => intro cpe h; exact absurd h (List.not_mem_nil cpe)
  | cons hd rest ih =>
    intro cpe hmem item hitem r hr
    rcases List.mem_cons.mp hmem with rfl | hmem2
    · exact le_trans (rankOf_innerFold_ge_match cpe stack acc item hitem r hr)
        (rankOf_outerFold_ge stack rest _)
    · exact ih _ cpe hmem2 item hitem r hr

theorem bestMatchFold_provenance (stack : List TechItem) (cpes : List String)
    (b : MatchLevel × String × String) (h : bestMatchFold stack cpes = some b) :
    ∃ cpe ∈ cpes, ∃ item ∈ stack, b.2.1 = item.id ∧ b.2.2 = cpe ∧
      matchCPE item cpe = some b.1 := by
  unfold bestMatchFold at h
  suffices haux : ∀ (cs : List String) (acc : Option (MatchLevel × String × String)),
      cs.foldl (fun best cpe => stack.foldl (bestStep cpe) best) acc = some b →
      acc = some b ∨ ∃ cpe ∈ cs, ∃ item ∈ stack, b.2.1 = item.id ∧ b.2.2 = cpe ∧
        matchCPE item cpe = some b.1 by
    rcases haux cpes none h with hcontra | hgood
    · exact absurd hcontra (by simp)
    · exact hgood
  intro cs
  induction cs with
  | nil => intro acc h2; exact Or.inl h2
  | cons hd rest ih =>
    intro acc h2
    rcases ih _ h2 with hstep | ⟨cpe, hmem, hb⟩
    · rcases innerFold_provenance hd stack acc b hstep with hacc | ⟨item, hitem, hb⟩
      · exact Or.inl hacc
      · exact Or.inr ⟨hd, List.mem_cons_self hd rest, item, hitem, hb⟩
    · exact Or.inr ⟨cpe, List.mem_cons_of_mem hd hmem, hb⟩

theorem bestMatchFold_none (stack : List TechItem) (cpes : List String)
    (h : bestMatchFold stack cpes = none) :
    ∀ cpe ∈ cpes, ∀ item ∈ stack, matchCPE item cpe = none := by
  intro cpe hmem item hitem
  cases hr : matchCPE item cpe with
  | none => rfl
  | some r =>
    have hge := rankOf_bestMatchFold_ge_match stack cpes none cpe hmem item hitem r hr
    unfold bestMatchFold at h
    rw [h] at hge
    have := one_le_matchRank r
    simp only [rankOf] at hge
    omega

theorem processOneCve_cveId (stack : List TechItem) (acve : ACve)
    (c : ExposureCandidate) (h : processOneCve stack acve = some c) :
    c.cveId = acve.cveId ∧ c.articleCveId = acve.id := by
  unfold processOneCve at h
  cases hb : bestMatchFold stack acve.cpeMatches with
  | some b =>
    rw [hb] at h
    obtain ⟨r, itemId, cpe⟩ := b
    obtain rfl := (Option.some.injEq _ _).mp h
    exact ⟨rfl, rfl⟩
  | none =>
    rw [hb] at h
    by_cases hl : 0 < acve.cpeMatches.length
    · rw [if_pos hl] at h
      obtain rfl := (Option.some.injEq _ _).mp h
      exact ⟨rfl, rfl⟩
    · rw [if_neg hl] at h; exact absurd h (by simp)

theorem processOneCve_isSome_of_cpes (stack : List TechItem) (acve : ACve)
    (h : 0 < acve.cpeMatches.length) : (processOneCve stack acve).isSome = true := by
  unfold processOneCve
  cases bestMatchFold stack acve.cpeMatches with
  | some b => obtain ⟨r, itemId, cpe⟩ := b; rfl
  | none => rw [if_pos h]; rfl

theorem processOneCve_none_of_no_cpes (stack : List TechItem) (acve : ACve)
    (h : acve.cpeMatches = []) : processOneCve stack acve = none := by
  unfold processOneCve
  rw [h]
  rfl

theorem matchLoop_eq_filterMap (stack : List TechItem) :
    ∀ (acves : List ACve) (seen : List String),
      matchLoop stack acves seen = (firstOccs acves seen).filterMap (processOneCve stack) := by
  intro acves
  induction acves with
  | nil => intro seen; rfl
  | cons acve rest ih =>
    intro seen
    unfold matchLoop firstOccs
    by_cases hmem : acve.cveId ∈ seen
    · rw [if_pos hmem, if_pos hmem, ih seen]
    · rw [if_neg hmem, if_neg hmem]
      cases hp : processOneCve stack acve with
      | some c => rw [List.filterMap_cons_some hp, ih]
      | none => rw [List.filterMap_cons_none hp, ih]

theorem firstOccs_sublist : ∀ (acves : List ACve) (seen : List String),
    (firstOccs acves seen).Sublist acves := by
  intro acves
  induction acves with
  | nil => intro seen; exact List.Sublist.refl _
  | cons acve rest ih =>
    intro seen
    unfold firstOccs
    by_cases hmem : acve.cveId ∈ seen
    · rw [if_pos hmem]; exact List.Sublist.cons acve (ih seen)
    · rw [if_neg hmem]; exact List.Sublist.cons₂ acve (ih _)

theorem firstOccs_fresh : ∀ (acves : List ACve) (seen : List String),
    ((firstOccs acves seen).map ACve.cveId).Nodup ∧
    ∀ x ∈ (firstOccs acves seen).map ACve.cveId, x ∉ seen := by
  intro acves
  induction acves with
  | nil => intro seen; exact ⟨List.nodup_nil, fun x hx => absurd hx (List.not_mem_nil x)⟩
  | cons acve rest ih =>
    intro seen
    unfold firstOccs
    by_cases hmem : acve.cveId ∈ seen
    · rw [if_pos hmem]; exact ih seen
    · rw [if_neg hmem]
      obtain ⟨hnd, hfresh⟩ := ih (acve.cveId :: seen)
      refine ⟨List.nodup_cons.mpr ⟨?_, hnd⟩, ?_⟩
      · intro hx
        exact (hfresh _ hx) (List.mem_cons_self _ _)
      · intro x hx
        rcases List.mem_cons.mp hx with rfl | hx2
        · exact hmem
        · intro hxs
          exact (hfresh x hx2) (List.mem_cons_of_mem _ hxs)

theorem countP_filterMap_processOne (stack : List TechItem) (l : List ACve) (x : String) :
    ((l.filterMap (processOneCve stack)).countP (fun c => c.cveId == x)) =
    l.countP (fun a => (a.cveId == x) && (processOneCve stack a).isSome) := by
  induction l with
  | nil => rfl
  | cons a rest ih =>
    cases hp : processOneCve stack a with
    | some c =>
      rw [List.filterMap_cons_some hp, List.countP_cons, List.countP_cons, ih, hp]
      rw [(processOneCve_cveId stack a c hp).1]
      rw [Option.isSome_some, Bool.and_true]
    | none =>
      rw [List.filterMap_cons_none hp, List.countP_cons, ih, hp]
      rw [Option.isSome_none, Bool.and_false]
      rfl

theorem map_cveId_filterMap_sublist (stack : List TechItem) (l : List ACve) :
    ((l.filterMap (processOneCve stack)).map ExposureCandidate.cveId).Sublist
      (l.map ACve.cveId) := by
  induction l with
  | nil => exact List.Sublist.refl _
  | cons a rest ih =>
    cases hp : processOneCve stack a with
    | some c =>
      rw [List.filterMap_cons_some hp, List.map_cons, List.map_cons,
        (processOneCve_cveId stack a c hp).1]
      exact List.Sublist.cons₂ _ ih
    | none =>
      rw [List.filterMap_cons_none hp, List.map_cons]
      exact List.Sublist.cons _ ih

/-- C4 counterexample: with an empty tech stack the function returns early with no
records at all, even for a CVE whose CPE list is non-empty, so no NOT_APPLICABLE
record is emitted although no stack item matches. -/
theorem matchCVEs_empty_stack :
    matchCVEsAgainstStack []
      [⟨"a1", "CVE-2024-0001", ["cpe:2.3:a:fortinet:fortios:7.0.0:*:*:*:*:*:*:*"], none⟩]
      = [] ∧
    (ACve.cpeMatches
      ⟨"a1", "CVE-2024-0001", ["cpe:2.3:a:fortinet:fortios:7.0.0:*:*:*:*:*:*:*"], none⟩)
      ≠ [] := by
  exact ⟨rfl, by decide⟩

/-- C4 amended: whenever the tech stack is non-empty, matchCVEsAgainstStack visits each
distinct cveId once (output cveIds are pairwise distinct); every output record stems
from an input CVE and either carries a best match — a stack item and CPE string whose
match level dominates the rank of every (CPE, item) match for that CVE, classified
VULNERABLE for exact or product and INDIRECT for vendor — or is the single bare
NOT_APPLICABLE record of a CVE with CPEs and no match; each first-occurrence CVE with
a non-empty CPE list yields exactly one record, and a CVE all of whose rows have no
CPEs yields none. -/
theorem matchCVEsAgainstStack_spec (stack : List TechItem) (acves : List ACve)
    (hs : stack ≠ []) :
    ((matchCVEsAgainstStack stack acves).map ExposureCandidate.cveId).Nodup ∧
    (∀ c ∈ matchCVEsAgainstStack stack acves, ∃ acve ∈ acves, c.cveId = acve.cveId ∧
      c.articleCveId = acve.id ∧
      ((∃ r item cpe, item ∈ stack ∧ cpe ∈ acve.cpeMatches ∧ matchCPE item cpe = some r ∧
          c.techStackItemId = some item.id ∧ c.matchedCpe = some cpe ∧
          c.remediationDeadline = acve.kevDueDate ∧
          c.exposureState = (if r = MatchLevel.vendor then "INDIRECT" else "VULNERABLE") ∧
          (∀ cpe2 ∈ acve.cpeMatches, ∀ item2 ∈ stack, ∀ r2,
            matchCPE item2 cpe2 = some r2 → matchRank r2 ≤ matchRank r)) ∨
       ((acve.cpeMatches ≠ []) ∧
          (∀ cpe2 ∈ acve.cpeMatches, ∀ item2 ∈ stack, matchCPE item2 cpe2 = none) ∧
          c = ⟨acve.cveId, acve.id, none, "NOT_APPLICABLE", none, none⟩))) ∧
    (∀ acve ∈ firstOccs acves [], acve.cpeMatches ≠ [] →
      (matchCVEsAgainstStack stack acves).countP (fun c => c.cveId == acve.cveId) = 1) ∧
    (∀ x : String, (∀ acve ∈ acves, acve.cveId = x → acve.cpeMatches = []) →
      (matchCVEsAgainstStack stack acves).countP (fun c => c.cveId == x) = 0) := by
  have hrw : matchCVEsAgainstStack stack acves =
      (firstOccs acves []).filterMap (processOneCve stack) := by
    unfold matchCVEsAgainstStack
    rw [if_neg (by simpa using fun h => hs (List.length_eq_zero.mp h)),
      matchLoop_eq_filterMap]
  obtain ⟨hnd, _⟩ := firstOccs_fresh acves []
  refine ⟨?_, ?_, ?_, ?_⟩
  · rw [hrw]
    exact hnd.sublist (map_cveId_filterMap_sublist stack _)
  · rw [hrw]
    intro c hc
    obtain ⟨acve, hmem, hp⟩ := List.mem_filterMap.mp hc
    refine ⟨acve, (firstOccs_sublist acves []).mem hmem, ?_⟩
    obtain ⟨hcve, hart⟩ := processOneCve_cveId stack acve c hp
    refine ⟨hcve, hart, ?_⟩
    unfold processOneCve at hp
    cases hb : bestMatchFold stack acve.cpeMatches with
    | some b =>
      rw [hb] at hp
      obtain ⟨r, itemId, cpe⟩ := b
      obtain rfl := (Option.some.injEq _ _).mp hp
      obtain ⟨cpe2, hcpe2, item, hitem, hid, hceq, hm⟩ :=
        bestMatchFold_provenance stack acve.cpeMatches _ hb
      dsimp only at hid hceq hm
      subst hceq
      left
      refine ⟨r, item, cpe, hitem, hcpe2, hm, by rw [hid], rfl, rfl, ?_, ?_⟩
      · cases r <;> rfl
      · intro cpe3 hcpe3 item3 hitem3 r3 hr3
        have := rankOf_bestMatchFold_ge_match stack acve.cpeMatches none
          cpe3 hcpe3 item3 hitem3 r3 hr3
        rw [show (acve.cpeMatches.foldl
            (fun best c => stack.foldl (bestStep c) best) none) =
            bestMatchFold stack acve.cpeMatches from rfl, hb] at this
        exact this
    | none =>
      rw [hb] at hp
      by_cases hl : 0 < acve.cpeMatches.length
      · rw [if_pos hl] at hp
        obtain rfl := (Option.some.injEq _ _).mp hp
        right
        exact ⟨fun he => by simp [he] at hl, bestMatchFold_none stack _ hb, rfl⟩
      · rw [if_neg hl] at hp
        exact absurd hp (by simp)
  · intro acve hmem hcpes
    rw [hrw, countP_filterMap_processOne]
    have hone : ∀ b ∈ firstOccs acves [],
        ((b.cveId == acve.cveId) && (processOneCve stack b).isSome) = true ↔
        (b == acve) = true := by
      intro b hb
      constructor
      · intro hq
        have hcv : b.cveId = acve.cveId := by
          have := (Bool.and_eq_true _ _).mp hq
          exact beq_iff_eq.mp this.1
        have := List.inj_on_of_nodup_map hnd hb hmem hcv
        exact beq_iff_eq.mpr this
      · intro hqb
        obtain rfl := beq_iff_eq.mp hqb
        rw [beq_self_eq_true, Bool.true_and]
        exact processOneCve_isSome_of_cpes stack b
          (by cases hcp : b.cpeMatches with
              | nil => exact absurd hcp hcpes
              | cons c cs => simp)
    rw [List.countP_congr hone]
    have : (firstOccs acves []).countP (fun b => b == acve) =
        (firstOccs acves []).count acve := rfl
    rw [this]
    exact List.count_eq_one_of_mem (hnd.of_map) hmem
  · intro x hall
    rw [hrw, countP_filterMap_processOne]
    apply List.countP_eq_zero.mpr
    intro b hb
    by_cases hbx : b.cveId = x
    · have hbe : b.cpeMatches = [] :=
        hall b ((firstOccs_sublist acves []).mem hb) hbx
      rw [processOneCve_none_of_no_cpes stack b hbe]
      rw [Option.isSome_none, Bool.and_false]
      exact Bool.false_ne_true
    · rw [beq_eq_false_iff_ne.mpr hbx, Bool.false_and]
      exact Bool.false_ne_true

/-- Closed witness for matchCVEsAgainstStack_spec on a one-item stack and a CVE with
no CPE strings: the stack is non-empty and the CVE emits no record. -/
theorem matchCVEsAgainstStack_spec_witness :
    ([(⟨"t1", "fortinet", "fortios", some "7.0.0"⟩ : TechItem)] ≠ []) ∧
    (∀ acve ∈ [(⟨"a1", "CVE-2024-0001", [], none⟩ : ACve)],
      acve.cveId = "CVE-2024-0001" → acve.cpeMatches = []) ∧
    (matchCVEsAgainstStack [⟨"t1", "fortinet", "fortios", some "7.0.0"⟩]
      [⟨"a1", "CVE-2024-0001", [], none⟩]).countP
        (fun c => c.cveId == "CVE-2024-0001") = 0 :=
  ⟨by decide, by decide,
    (matchCVEsAgainstStack_spec [⟨"t1", "fortinet", "fortios", some "7.0.0"⟩]
      [⟨"a1", "CVE-2024-0001", [], none⟩] (by decide)).2.2.2 "CVE-2024-0001"
      (by decide)⟩

theorem retroGo_preserves (now : Int) (item : TechItem)
    (existingAuto : String → Option Bool) (cve : String)
    (hman : existingAuto cve = some false) :
    ∀ (acves : List ACve) (seen : List String) (tbl : String → Option ExpoRow),
      retroGo now item existingAuto acves seen tbl cve = tbl cve := by
  intro acves
  induction acves with
  | nil => intro seen tbl; rfl
  | cons acve rest ih =>
    intro seen tbl
    unfold retroGo
    by_cases hseen : acve.cveId ∈ seen
    · rw [if_pos hseen]; exact ih seen tbl
    · rw [if_neg hseen]
      by_cases hskip : existingAuto acve.cveId = some false
      · rw [if_pos hskip]; exact ih _ tbl
      · rw [if_neg hskip]
        cases hfu : firstUpsertCpe item acve.cpeMatches with
        | some p =>
          obtain ⟨cpe, r⟩ := p
          dsimp only
          rw [ih _ _]
          unfold retroUpsert
          have hne : cve ≠ acve.cveId := by
            intro he
            rw [he] at hman
            exact hskip hman
          rw [if_neg hne]
        | none => exact ih _ tbl

/-- C1: a manual exposure override (autoClassified=false) is a fixpoint of the
auto-classifier. The PUT handler always leaves autoClassified=false on the row it
updates, and any row with autoClassified=false survives any sequence of retroactive
match runs (arbitrary stack items, CVE lists and times) completely unchanged; the
only scheduled auto-classification write path in the source is this retroactive
upsert, which skips manually classified CVEs. -/
theorem manual_exposure_fixpoint :
    (∀ (now : Int) (cve newState : String) (notes : Option String)
       (tbl : String → Option ExpoRow) (old : ExpoRow),
       tbl cve = some old →
       newState ∈ ["VULNERABLE", "FIXED", "NOT_APPLICABLE", "INDIRECT"] →
       ∃ e, putExposureUpdate now cve newState notes tbl cve = some e ∧
         e.autoClassified = false ∧ e.exposureState = newState) ∧
    (∀ (runs : List (Int × TechItem × List ACve)) (tbl : String → Option ExpoRow)
       (cve : String) (e : ExpoRow),
       tbl cve = some e → e.autoClassified = false →
       (runs.foldl (fun t nr => retroactiveMatchForStackItem nr.1 nr.2.1 nr.2.2 t) tbl)
         cve = some e) := by
  constructor
  · intro now cve newState notes tbl old hold hvalid
    have hput : putExposureUpdate now cve newState notes tbl cve =
        some { old with
          exposureState := newState,
          autoClassified := false,
          notes := (match notes with | some n => some n | none => old.notes),
          patchedAt :=
            if newState = "FIXED" ∧ old.patchedAt = none then some now
            else old.patchedAt } := by
      unfold putExposureUpdate
      rw [if_pos rfl, hold]
      dsimp only
      rw [if_pos hvalid]
    exact ⟨_, hput, rfl, rfl⟩
  · intro runs
    induction runs with
    | nil => intro tbl cve e he hman; exact he
    | cons run rest ih =>
      intro tbl cve e he hman
      rw [List.foldl_cons]
      apply ih
      · unfold retroactiveMatchForStackItem
        rw [retroGo_preserves _ _ _ cve (by simp [he, hman])]
        exact he
      · exact hman

/-- Closed witness for manual_exposure_fixpoint: a concrete manually-FIXED row survives
a retroactive run for a stack item whose CPE pattern matches the CVE. -/
theorem manual_exposure_fixpoint_witness :
    ((fun c => if c = "CVE-2024-0001" then
        some (⟨"CVE-2024-0001", "a1", some "t1", "FIXED", some "x", none, false, 0,
               some 5, none⟩ : ExpoRow) else none) "CVE-2024-0001" =
      some ⟨"CVE-2024-0001", "a1", some "t1", "FIXED", some "x", none, false, 0,
               some 5, none⟩) ∧
    (ExpoRow.autoClassified ⟨"CVE-2024-0001", "a1", some "t1", "FIXED", some "x", none,
       false, 0, some 5, none⟩ = false) ∧
    ([(0, ⟨"t1", "fortinet", "fortios", some "7.0.0"⟩,
        [(⟨"a1", "CVE-2024-0001",
           ["cpe:2.3:a:fortinet:fortios:7.0.0:*:*:*:*:*:*:*"], none⟩ : ACve)])].foldl
      (fun t nr => retroactiveMatchForStackItem nr.1 nr.2.1 nr.2.2 t)
      (fun c => if c = "CVE-2024-0001" then
        some ⟨"CVE-2024-0001", "a1", some "t1", "FIXED", some "x", none, false, 0,
               some 5, none⟩ else none)) "CVE-2024-0001" =
      some ⟨"CVE-2024-0001", "a1", some "t1", "FIXED", some "x", none, false, 0,
               some 5, none⟩ :=
  ⟨by decide, by decide,
    manual_exposure_fixpoint.2
      [(0, ⟨"t1", "fortinet", "fortios", some "7.0.0"⟩,
        [⟨"a1", "CVE-2024-0001",
          ["cpe:2.3:a:fortinet:fortios:7.0.0:*:*:*:*:*:*:*"], none⟩])]
      _ "CVE-2024-0001" _ (by decide) (by decide)⟩

theorem rlStep_char (cap : Nat) (hcap : 1 ≤ cap) (ts : List Nat) (now : Nat)
    (hle : ∀ t ∈ ts, t ≤ now) (hlen : ts.length ≤ cap) :
    ∃ a, rlStep cap ts now = (a, ts.filter (fun t => a - t < windowMs) ++ [a]) ∧
      now ≤ a ∧ (ts.filter (fun t => a - t < windowMs)).length < cap := by
  unfold rlStep
  by_cases hfull : cap ≤ (ts.filter (fun t => now - t < windowMs)).length
  · rw [if_pos hfull]
    cases hlive : ts.filter (fun t => now - t < windowMs) with
    | nil => rw [hlive] at hfull; simp at hfull; omega
    | cons oldest rest =>
      rw [hlive] at hfull
      have holdmem : oldest ∈ ts.filter (fun t => now - t < windowMs) := by
        rw [hlive]; exact List.mem_cons_self _ _
      have holdts : oldest ∈ ts := (List.mem_filter.mp holdmem).1
      have holdlive : now - oldest < windowMs :=
        by simpa using (List.mem_filter.mp holdmem).2
      have holdle : oldest ≤ now := hle oldest holdts
      have hwake : now < oldest + windowMs + 100 := by omega
      dsimp only
      rw [if_pos hwake]
      refine ⟨oldest + windowMs + 100, ?_, by omega, ?_⟩
      · rw [← hlive, List.filter_filter]
        have heq : ts.filter (fun t =>
            decide (oldest + windowMs + 100 - t < windowMs) && decide (now - t < windowMs)) =
            ts.filter (fun t => decide (oldest + windowMs + 100 - t < windowMs)) := by
          apply List.filter_congr
          intro t hts
          by_cases hq : oldest + windowMs + 100 - t < windowMs
          · have ht_le : t ≤ now := hle t hts
            have hp : now - t < windowMs := by omega
            simp [hq, hp]
          · simp [hq]
        rw [heq]
      · have hsub : ((oldest :: rest).filter
            (fun t => decide (oldest + windowMs + 100 - t < windowMs))) =
            (ts.filter (fun t => decide (oldest + windowMs + 100 - t < windowMs))) := by
          rw [← hlive, List.filter_filter]
          apply List.filter_congr
          intro t hts
          by_cases hq : oldest + windowMs + 100 - t < windowMs
          · have ht_le : t ≤ now := hle t hts
            have hp : now - t < windowMs := by omega
            simp [hq, hp]
          · simp [hq]
        rw [← hsub]
        have hnotold : ¬(oldest + windowMs + 100 - oldest < windowMs) := by omega
        rw [List.filter_cons_of_neg (by simpa using hnotold)]
        have h1 : (rest.filter (fun t =>
            decide (oldest + windowMs + 100 - t < windowMs))).length ≤
            rest.length := List.length_filter_le _ _
        have h2 : (oldest :: rest).length ≤ ts.length := by
          rw [← hlive]; exact List.length_filter_le _ _
        simp only [List.length_cons] at h2
        omega
  · rw [if_neg hfull]
    exact ⟨now, rfl, le_refl now, Nat.lt_of_not_le hfull⟩

theorem rlRun_props (cap : Nat) (hcap : 1 ≤ cap) :
    ∀ (rs ts : List Nat), List.Sorted (· ≤ ·) ts → ts.length ≤ cap →
      seqOK cap ts rs = true →
      (rlRun cap ts rs).length = rs.length ∧
      (∀ x ∈ rlRun cap ts rs, ∀ t ∈ ts, t ≤ x) ∧
      List.Sorted (· ≤ ·) (ts ++ rlRun cap ts rs) ∧
      (∀ w, (ts ++ rlRun cap ts rs).countP (inWindow w) ≤ cap) := by
  intro rs
  induction rs with
  | nil =>
    intro ts hsort hlen _
    refine ⟨rfl, by intro x hx; exact absurd hx (List.not_mem_nil x),
      by rw [show rlRun cap ts [] = [] from rfl, List.append_nil]; exact hsort, ?_⟩
    intro w
    calc (ts ++ rlRun cap ts []).countP (inWindow w)
        = ts.countP (inWindow w) := by simp [rlRun]
      _ ≤ ts.length := List.countP_le_length _
      _ ≤ cap := hlen
  | cons r rs ih =>
    intro ts hsort hlen hseq
    have hseq1 : ts.all (fun t => t ≤ r) = true ∧
        seqOK cap (rlStep cap ts r).2 rs = true := by
      have := hseq
      unfold seqOK at this
      exact Bool.and_eq_true _ _ |>.mp this
    have hler : ∀ t ∈ ts, t ≤ r := by
      intro t ht
      exact (by simpa using List.all_eq_true.mp hseq1.1 t ht)
    obtain ⟨a, hstep, hra, hkeeplen⟩ := rlStep_char cap hcap ts r hler hlen
    have hkeepsub : (ts.filter (fun t => a - t < windowMs)).Sublist ts :=
      List.filter_sublist ts
    have hkeepsort : List.Sorted (· ≤ ·) (ts.filter (fun t => a - t < windowMs)) :=
      hsort.sublist hkeepsub
    have hkeep_le_a : ∀ t ∈ ts.filter (fun t => a - t < windowMs), t ≤ a := by
      intro t ht
      exact le_trans (hler t (hkeepsub.mem ht)) hra
    have hts2sort : List.Sorted (· ≤ ·) (ts.filter (fun t => a - t < windowMs) ++ [a]) := by
      rw [List.Sorted, List.pairwise_append]
      exact ⟨hkeepsort, List.sorted_singleton a, by
        intro x hx y hy
        rw [List.mem_singleton.mp hy]
        exact hkeep_le_a x hx⟩
    have hts2len : (ts.filter (fun t => a - t < windowMs) ++ [a]).length ≤ cap := by
      rw [List.length_append, List.length_singleton]
      omega
    have hrw2 : (rlStep cap ts r).2 = ts.filter (fun t => a - t < windowMs) ++ [a] := by
      rw [hstep]
    have hrw1 : (rlStep cap ts r).1 = a := by rw [hstep]
    obtain ⟨ihlen, ihlb, ihsort, ihcap⟩ :=
      ih (ts.filter (fun t => a - t < windowMs) ++ [a]) hts2sort hts2len
        (by rw [← hrw2]; exact hseq1.2)
    have hrunrw : rlRun cap ts (r :: rs) =
        a :: rlRun cap (ts.filter (fun t => a - t < windowMs) ++ [a]) rs := by
      have h0 : rlRun cap ts (r :: rs) =
          (rlStep cap ts r).1 :: rlRun cap (rlStep cap ts r).2 rs := rfl
      rw [h0, hrw1, hrw2]
    have ha_mem_ts2 : a ∈ ts.filter (fun t => a - t < windowMs) ++ [a] := by
      rw [List.mem_append, List.mem_singleton]; exact Or.inr rfl
    have hbound : ∀ x ∈ rlRun cap (ts.filter (fun t => a - t < windowMs) ++ [a]) rs,
        a ≤ x := fun x hx => ihlb x hx a ha_mem_ts2
    refine ⟨?_, ?_, ?_, ?_⟩
    · rw [hrunrw, List.length_cons, ihlen, List.length_cons]
    · rw [hrunrw]
      intro x hx t ht
      rcases List.mem_cons.mp hx with rfl | hx2
      · exact le_trans (hler t ht) hra
      · exact le_trans (le_trans (hler t ht) hra) (hbound x hx2)
    · rw [hrunrw, List.Sorted, List.pairwise_append]
      refine ⟨hsort, ?_, ?_⟩
      · have hihs := ihsort
        rw [List.append_assoc, List.singleton_append] at hihs
        exact hihs.sublist (List.sublist_append_right _ _)
      · intro t ht x hx
        rcases List.mem_cons.mp hx with rfl | hx2
        · exact le_trans (hler t ht) hra
        · exact le_trans (le_trans (hler t ht) hra) (hbound x hx2)
    · intro w
      rw [hrunrw]
      by_cases hdrop : ∃ t ∈ ts, ¬(a - t < windowMs) ∧ inWindow w t = true
      · obtain ⟨t0, ht0, ht0drop, ht0win⟩ := hdrop
        have ht0a : t0 ≤ a := le_trans (hler t0 ht0) hra
        have ht0w : w < t0 ∧ t0 ≤ w + windowMs := by
          unfold inWindow at ht0win
          simpa using ht0win
        have hcount0 : (a :: rlRun cap (ts.filter (fun t => a - t < windowMs) ++ [a]) rs).countP
            (inWindow w) = 0 := by
          apply List.countP_eq_zero.mpr
          intro x hx
          have hax : a ≤ x := by
            rcases List.mem_cons.mp hx with rfl | hx2
            · exact le_refl _
            · exact hbound x hx2
          unfold inWindow
          simp only [Bool.and_eq_true, decide_eq_true_eq, not_and]
          intro _
          omega
        rw [List.countP_append, hcount0, Nat.add_zero]
        exact le_trans (List.countP_le_length _) hlen
      · push_neg at hdrop
        have hkw : ts.countP (inWindow w) =
            (ts.filter (fun t => a - t < windowMs)).countP (inWindow w) := by
          rw [List.countP_filter]
          apply List.countP_congr
          intro t ht
          constructor
          · intro hwin
            rw [Bool.and_eq_true]
            refine ⟨hwin, ?_⟩
            by_cases hk : a - t < windowMs
            · simpa using hk
            · exact absurd hwin (by
                intro hw
                exact (hdrop t ht (Nat.le_of_not_lt hk)) hw)
          · intro hb
            exact (Bool.and_eq_true _ _ |>.mp hb).1
        calc (ts ++ a :: rlRun cap (ts.filter (fun t => a - t < windowMs) ++ [a]) rs).countP
              (inWindow w)
            = ts.countP (inWindow w) +
              (a :: rlRun cap (ts.filter (fun t => a - t < windowMs) ++ [a]) rs).countP
                (inWindow w) := List.countP_append _ _ _
          _ = (ts.filter (fun t => a - t < windowMs)).countP (inWindow w) +
              (a :: rlRun cap (ts.filter (fun t => a - t < windowMs) ++ [a]) rs).countP
                (inWindow w) := by rw [hkw]
          _ = ((ts.filter (fun t => a - t < windowMs) ++ [a]) ++
                rlRun cap (ts.filter (fun t => a - t < windowMs) ++ [a]) rs).countP
                (inWindow w) := by
              rw [List.countP_append, List.countP_append]
              simp [List.countP_cons]
              omega
          _ ≤ cap := ihcap w

/-- C6: for any sequence of sequential calls through one NVDRateLimiter, every call is
admitted (none fails), at most capacity admissions fall inside any sliding 30-second
window, and when the pruned window is full the call is admitted exactly at the oldest
recorded timestamp plus the window plus the 100 ms margin. -/
theorem nvdRateLimiter_spec (hasApiKey : Bool) (rs : List Nat)
    (hseq : seqOK (nvdCapacity hasApiKey) [] rs = true) :
    (rlRun (nvdCapacity hasApiKey) [] rs).length = rs.length ∧
    (∀ w, (rlRun (nvdCapacity hasApiKey) [] rs).countP (inWindow w) ≤
      nvdCapacity hasApiKey) ∧
    (∀ (ts : List Nat) (now oldest : Nat) (rest : List Nat),
      ts.filter (fun t => now - t < windowMs) = oldest :: rest →
      nvdCapacity hasApiKey ≤ (oldest :: rest).length →
      oldest ≤ now →
      (rlStep (nvdCapacity hasApiKey) ts now).1 = oldest + windowMs + 100) := by
  have hcap : 1 ≤ nvdCapacity hasApiKey := by cases hasApiKey <;> decide
  obtain ⟨hlen, _, _, hcapw⟩ := rlRun_props _ hcap rs [] List.sorted_nil
    (by simp) hseq
  refine ⟨hlen, ?_, ?_⟩
  · intro w
    have := hcapw w
    rwa [List.nil_append] at this
  · intro ts now oldest rest hlive hfull holdle
    have holdlive : now - oldest < windowMs := by
      have hmem : oldest ∈ ts.filter (fun t => now - t < windowMs) := by
        rw [hlive]; exact List.mem_cons_self _ _
      simpa using (List.mem_filter.mp hmem).2
    simp only [rlStep, hlive]
    rw [if_pos hfull]
    dsimp only
    rw [if_pos (show now < oldest + windowMs + 100 by omega)]

/-- Closed witness for nvdRateLimiter_spec: three sequential calls without an API key
all complete. -/
theorem nvdRateLimiter_spec_witness :
    seqOK (nvdCapacity false) [] [0, 1, 2] = true ∧
    (rlRun (nvdCapacity false) [] [0, 1, 2]).length = [0, 1, 2].length :=
  ⟨by decide, (nvdRateLimiter_spec false [0, 1, 2] (by decide)).1⟩

theorem gInv_init (n : Nat) : GInv n ⟨[], fun _ => none⟩ := by
  refine ⟨?_, ?_, ?_⟩
  · intro k g
    constructor
    · intro h; exact absurd h (by simp)
    · rintro ⟨G, hG, _⟩
      exact absurd hG (by simp)
  · intro G hG; exact absurd hG (List.not_mem_nil G)
  · intro G hG; exact absurd hG (List.not_mem_nil G)

theorem gInv_new (n : Nat) (s : GState) (inv : GInv n s) (i j : Nat)
    (hi : i < n) (hj : j < n) (hni : s.assign i = none) (hnj : s.assign j = none) :
    GInv n ⟨s.groups ++ [({i, j} : Finset Nat)],
      fun k => if k = i ∨ k = j then some s.groups.length else s.assign k⟩ := by
  refine ⟨?_, ?_, ?_⟩
  · intro k g
    dsimp only
    by_cases hk : k = i ∨ k = j
    · rw [if_pos hk]
      constructor
      · intro h
        obtain rfl : s.groups.length = g := by injection h
        refine ⟨{i, j}, List.get?_concat_length _ _, ?_⟩
        rcases hk with rfl | rfl
        · exact Finset.mem_insert_self _ _
        · exact Finset.mem_insert.mpr (Or.inr (Finset.mem_singleton_self _))
      · rintro ⟨G, hG, hkG⟩
        by_cases hg : g < s.groups.length
        · rw [List.get?_append hg] at hG
          have := (inv.coh k g).mpr ⟨G, hG, hkG⟩
          rcases hk with rfl | rfl
          · rw [hni] at this; exact absurd this (by simp)
          · rw [hnj] at this; exact absurd this (by simp)
        · by_cases hg2 : g = s.groups.length
          · rw [hg2]
          · have : (s.groups ++ [({i, j} : Finset Nat)]).get? g = none := by
              apply List.get?_len_le
              rw [List.length_append, List.length_singleton]
              omega
            rw [this] at hG
            exact absurd hG (by simp)
    · rw [if_neg hk]
      push_neg at hk
      constructor
      · intro h
        obtain ⟨G, hG, hkG⟩ := (inv.coh k g).mp h
        have hg : g < s.groups.length := (List.get?_eq_some.mp hG).1
        exact ⟨G, by rw [List.get?_append hg]; exact hG, hkG⟩
      · rintro ⟨G, hG, hkG⟩
        by_cases hg : g < s.groups.length
        · rw [List.get?_append hg] at hG
          exact (inv.coh k g).mpr ⟨G, hG, hkG⟩
        · by_cases hg2 : g = s.groups.length
          · subst hg2
            rw [List.get?_concat_length] at hG
            obtain rfl : ({i, j} : Finset Nat) = G := by injection hG
            rcases Finset.mem_insert.mp hkG with rfl | h2
            · exact absurd rfl hk.1
            · exact absurd (Finset.mem_singleton.mp h2) hk.2
          · have : (s.groups ++ [({i, j} : Finset Nat)]).get? g = none := by
              apply List.get?_len_le
              rw [List.length_append, List.length_singleton]
              omega
            rw [this] at hG
            exact absurd hG (by simp)
  · intro G hG
    rcases List.mem_append.mp hG with h | h
    · exact inv.card_le G h
    · obtain rfl : G = ({i, j} : Finset Nat) := List.mem_singleton.mp h
      calc ({i, j} : Finset Nat).card ≤ ({j} : Finset Nat).card + 1 :=
            Finset.card_insert_le _ _
        _ ≤ MAX_GROUP_SIZE := by rw [Finset.card_singleton]; decide
  · intro G hG k hk
    rcases List.mem_append.mp hG with h | h
    · exact inv.mem_lt G h k hk
    · obtain rfl : G = ({i, j} : Finset Nat) := List.mem_singleton.mp h
      rcases Finset.mem_insert.mp hk with rfl | h2
      · exact hi
      · rw [Finset.mem_singleton.mp h2]; exact hj

theorem gInv_add (n : Nat) (s : GState) (inv : GInv n s) (g m : Nat) (G0 : Finset Nat)
    (hm : m < n) (hget : s.groups.get? g = some G0) (hnone : s.assign m = none)
    (hcard : G0.card < MAX_GROUP_SIZE) :
    GInv n ⟨s.groups.set g (G0 ∪ {m}),
      fun k => if k = m then some g else s.assign k⟩ := by
  have hglen : g < s.groups.length := (List.get?_eq_some.mp hget).1
  have hmemG0 : G0 ∈ s.groups := List.get?_mem hget
  refine ⟨?_, ?_, ?_⟩
  · intro k g2
    dsimp only
    by_cases hk : k = m
    · subst hk
      rw [if_pos rfl]
      constructor
      · intro h
        obtain rfl : g = g2 := by injection h
        refine ⟨G0 ∪ {k}, ?_, Finset.mem_union_right _ (Finset.mem_singleton_self k)⟩
        rw [List.get?_set_eq, hget]
        rfl
      · rintro ⟨G, hG, hkG⟩
        by_cases hg2 : g2 = g
        · rw [hg2]
        · rw [List.get?_set_ne _ _ (fun he => hg2 he.symm)] at hG
          have := (inv.coh k g2).mpr ⟨G, hG, hkG⟩
          rw [hnone] at this
          exact absurd this (by simp)
    · rw [if_neg hk]
      constructor
      · intro h
        obtain ⟨G, hG, hkG⟩ := (inv.coh k g2).mp h
        by_cases hg2 : g2 = g
        · subst hg2
          obtain rfl : G0 = G := by rw [hget] at hG; injection hG
          refine ⟨G0 ∪ {m}, ?_, Finset.mem_union_left _ hkG⟩
          rw [List.get?_set_eq, hget]
          rfl
        · exact ⟨G, by rw [List.get?_set_ne _ _ (fun he => hg2 he.symm)]; exact hG, hkG⟩
      · rintro ⟨G, hG, hkG⟩
        by_cases hg2 : g2 = g
        · subst hg2
          rw [List.get?_set_eq, hget] at hG
          obtain rfl : G0 ∪ {m} = G := by injection hG
          rcases Finset.mem_union.mp hkG with h2 | h2
          · exact (inv.coh k g2).mpr ⟨G0, hget, h2⟩
          · exact absurd (Finset.mem_singleton.mp h2) hk
        · rw [List.get?_set_ne _ _ (fun he => hg2 he.symm)] at hG
          exact (inv.coh k g2).mpr ⟨G, hG, hkG⟩
  · intro G hG
    rcases List.mem_or_eq_of_mem_set hG with h | rfl
    · exact inv.card_le G h
    · calc (G0 ∪ {m}).card ≤ G0.card + ({m} : Finset Nat).card := Finset.card_union_le _ _
        _ = G0.card + 1 := by rw [Finset.card_singleton]
        _ ≤ MAX_GROUP_SIZE := by omega
  · intro G hG k hk
    rcases List.mem_or_eq_of_mem_set hG with h | rfl
    · exact inv.mem_lt G h k hk
    · rcases Finset.mem_union.mp hk with h2 | h2
      · exact inv.mem_lt G0 hmemG0 k h2
      · rw [Finset.mem_singleton.mp h2]; exact hm

theorem gInv_merge (n : Nat) (s : GState) (inv : GInv n s) (L Sm : Nat)
    (GrpL GrpS : Finset Nat) (hLS : L ≠ Sm)
    (hgetL : s.groups.get? L = some GrpL) (hgetSm : s.groups.get? Sm = some GrpS)
    (hsum : GrpL.card + GrpS.card ≤ MAX_GROUP_SIZE) :
    GInv n ⟨(s.groups.set L (GrpL ∪ GrpS)).set Sm ∅,
      fun k => if k ∈ GrpS then some L else s.assign k⟩ := by
  have hLlen : L < s.groups.length := (List.get?_eq_some.mp hgetL).1
  have hSlen : Sm < s.groups.length := (List.get?_eq_some.mp hgetSm).1
  have hmemGrpL : GrpL ∈ s.groups := List.get?_mem hgetL
  have hmemGrpS : GrpS ∈ s.groups := List.get?_mem hgetSm
  have hget2L : ((s.groups.set L (GrpL ∪ GrpS)).set Sm ∅).get? L = some (GrpL ∪ GrpS) := by
    rw [List.get?_set_ne _ _ hLS.symm, List.get?_set_eq, hgetL]
    rfl
  have hget2Sm : ((s.groups.set L (GrpL ∪ GrpS)).set Sm ∅).get? Sm = some ∅ := by
    rw [List.get?_set_eq, List.get?_set_ne _ _ hLS, hgetSm]
    rfl
  have hget2other : ∀ g, g ≠ L → g ≠ Sm →
      ((s.groups.set L (GrpL ∪ GrpS)).set Sm ∅).get? g = s.groups.get? g := by
    intro g hgL hgS
    rw [List.get?_set_ne _ _ (fun he => hgS he.symm),
        List.get?_set_ne _ _ (fun he => hgL he.symm)]
  refine ⟨?_, ?_, ?_⟩
  · intro k g2
    dsimp only
    by_cases hk : k ∈ GrpS
    · rw [if_pos hk]
      constructor
      · intro h
        obtain rfl : L = g2 := by injection h
        exact ⟨GrpL ∪ GrpS, hget2L, Finset.mem_union_right _ hk⟩
      · rintro ⟨G, hG, hkG⟩
        by_cases hg2L : g2 = L
        · rw [hg2L]
        · by_cases hg2S : g2 = Sm
          · subst hg2S
            rw [hget2Sm] at hG
            obtain rfl : (∅ : Finset Nat) = G := by injection hG
            exact absurd hkG (Finset.not_mem_empty k)
          · rw [hget2other g2 hg2L hg2S] at hG
            have h1 := (inv.coh k g2).mpr ⟨G, hG, hkG⟩
            have h2 := (inv.coh k Sm).mpr ⟨GrpS, hgetSm, hk⟩
            rw [h1] at h2
            obtain rfl : g2 = Sm := by injection h2
            exact absurd rfl hg2S
    · rw [if_neg hk]
      constructor
      · intro h
        obtain ⟨G, hG, hkG⟩ := (inv.coh k g2).mp h
        by_cases hg2L : g2 = L
        · subst hg2L
          obtain rfl : GrpL = G := by rw [hgetL] at hG; injection hG
          exact ⟨GrpL ∪ GrpS, hget2L, Finset.mem_union_left _ hkG⟩
        · by_cases hg2S : g2 = Sm
          · subst hg2S
            obtain rfl : GrpS = G := by rw [hgetSm] at hG; injection hG
            exact absurd hkG hk
          · exact ⟨G, by rw [hget2other g2 hg2L hg2S]; exact hG, hkG⟩
      · rintro ⟨G, hG, hkG⟩
        by_cases hg2L : g2 = L
        · subst hg2L
          rw [hget2L] at hG
          obtain rfl : GrpL ∪ GrpS = G := by injection hG
          rcases Finset.mem_union.mp hkG with h2 | h2
          · exact (inv.coh k g2).mpr ⟨GrpL, hgetL, h2⟩
          · exact absurd h2 hk
        · by_cases hg2S : g2 = Sm
          · subst hg2S
            rw [hget2Sm] at hG
            obtain rfl : (∅ : Finset Nat) = G := by injection hG
            exact absurd hkG (Finset.not_mem_empty k)
          · rw [hget2other g2 hg2L hg2S] at hG
            exact (inv.coh k g2).mpr ⟨G, hG, hkG⟩
  · intro G hG
    rcases List.mem_or_eq_of_mem_set hG with h | rfl
    · rcases List.mem_or_eq_of_mem_set h with h2 | rfl
      · exact inv.card_le G h2
      · exact le_trans (Finset.card_union_le _ _) hsum
    · rw [Finset.card_empty]; exact Nat.zero_le _
  · intro G hG k hk
    rcases List.mem_or_eq_of_mem_set hG with h | rfl
    · rcases List.mem_or_eq_of_mem_set h with h2 | rfl
      · exact inv.mem_lt G h2 k hk
      · rcases Finset.mem_union.mp hk with h2 | h2
        · exact inv.mem_lt GrpL hmemGrpL k h2
        · exact inv.mem_lt GrpS hmemGrpS k h2
    · exact absurd hk (Finset.not_mem_empty k)

theorem gInv_step (n : Nat) (s : GState) (inv : GInv n s) (p : Nat × Nat)
    (hp1 : p.1 < n) (hp2 : p.2 < n) : GInv n (gStep s p) := by
  unfold gStep
  cases hA1 : s.assign p.1 with
  | none =>
    cases hA2 : s.assign p.2 with
    | none =>
      dsimp only
      exact gInv_new n s inv p.1 p.2 hp1 hp2 hA1 hA2
    | some gJ =>
      dsimp only
      obtain ⟨GJ, hgetJ, hJmem⟩ := (inv.coh p.2 gJ).mp hA2
      have hD : s.groups.getD gJ ∅ = GJ := by
        rw [List.getD_eq_get?, hgetJ]; rfl
      rw [hD]
      by_cases hc : GJ.card < MAX_GROUP_SIZE
      · rw [if_pos hc]
        exact gInv_add n s inv gJ p.1 GJ hp1 hgetJ hA1 hc
      · rw [if_neg hc]
        exact inv
  | some gI =>
    cases hA2 : s.assign p.2 with
    | none =>
      dsimp only
      obtain ⟨GI, hgetI, hImem⟩ := (inv.coh p.1 gI).mp hA1
      have hD : s.groups.getD gI ∅ = GI := by
        rw [List.getD_eq_get?, hgetI]; rfl
      rw [hD]
      by_cases hc : GI.card < MAX_GROUP_SIZE
      · rw [if_pos hc]
        exact gInv_add n s inv gI p.2 GI hp2 hgetI hA2 hc
      · rw [if_neg hc]
        exact inv
    | some gJ =>
      dsimp only
      obtain ⟨GI, hgetI, hImem⟩ := (inv.coh p.1 gI).mp hA1
      obtain ⟨GJ, hgetJ, hJmem⟩ := (inv.coh p.2 gJ).mp hA2
      have hDI : s.groups.getD gI ∅ = GI := by
        rw [List.getD_eq_get?, hgetI]; rfl
      have hDJ : s.groups.getD gJ ∅ = GJ := by
        rw [List.getD_eq_get?, hgetJ]; rfl
      by_cases hc : gI ≠ gJ ∧
          (s.groups.getD gI ∅).card + (s.groups.getD gJ ∅).card ≤ MAX_GROUP_SIZE
      · rw [if_pos hc]
        have hc2 : GI.card + GJ.card ≤ MAX_GROUP_SIZE := by
          rw [hDI, hDJ] at hc; exact hc.2
        by_cases hsz : (s.groups.getD gJ ∅).card ≤ (s.groups.getD gI ∅).card
        · simp only [if_pos hsz]
          rw [hDI, hDJ]
          exact gInv_merge n s inv gI gJ GI GJ hc.1 hgetI hgetJ hc2
        · simp only [if_neg hsz]
          rw [hDI, hDJ]
          exact gInv_merge n s inv gJ gI GJ GI (Ne.symm hc.1) hgetJ hgetI (by omega)
      · rw [if_neg hc]
        exact inv

theorem gInv_foldl (n : Nat) :
    ∀ (pairs : List (Nat × Nat)) (s : GState), GInv n s →
      (∀ p ∈ pairs, p.1 < n ∧ p.2 < n) → GInv n (pairs.foldl gStep s) := by
  intro pairs
  induction pairs with
  | nil => intro s inv _; exact inv
  | cons p rest ih =>
    intro s inv hlt
    rw [List.foldl_cons]
    exact ih (gStep s p)
      (gInv_step n s inv p (hlt p (List.mem_cons_self p rest)).1
        (hlt p (List.mem_cons_self p rest)).2)
      (fun q hq => hlt q (List.mem_cons_of_mem p hq))

theorem gInv_greedyLoop (n : Nat) (pairs : List (Nat × Nat))
    (hlt : ∀ p ∈ pairs, p.1 < n ∧ p.2 < n) : GInv n (greedyLoop pairs) :=
  gInv_foldl n pairs _ (gInv_init n) hlt

theorem countP_mem_eq_one_of_unique (l : List (Finset Nat)) (k g : Nat)
    (G : Finset Nat) (hg : l.get? g = some G) (hkG : k ∈ G)
    (huniq : ∀ g2 G2, l.get? g2 = some G2 → k ∈ G2 → g2 = g) :
    l.countP (fun G2 => decide (k ∈ G2)) = 1 := by
  induction l generalizing g with
  | nil => exact absurd hg (by simp)
  | cons H tail ih =>
    rw [List.countP_cons]
    by_cases hkH : k ∈ H
    · have hg0 : 0 = g := huniq 0 H rfl hkH
      have htail : tail.countP (fun G2 => decide (k ∈ G2)) = 0 := by
        apply List.countP_eq_zero.mpr
        intro G2 hG2
        obtain ⟨m, hm⟩ := List.get?_of_mem hG2
        simp only [decide_eq_true_eq]
        intro hk2
        have : m + 1 = g := huniq (m + 1) G2 (by simpa using hm) hk2
        omega
      simp [htail, hkH]
    · have hgne : g ≠ 0 := by
        intro h0
        subst h0
        obtain rfl : H = G := by
          have : (H :: tail).get? 0 = some H := rfl
          rw [this] at hg
          injection hg
        exact hkH hkG
      obtain ⟨g2, rfl⟩ : ∃ g2, g = g2 + 1 := ⟨g - 1, by omega⟩
      have hg2 : tail.get? g2 = some G := by simpa using hg
      have ihres := ih g2 hg2 (by
        intro g3 G3 hg3 hk3
        have : g3 + 1 = g2 + 1 := huniq (g3 + 1) G3 (by simpa using hg3) hk3
        omega)
      simp [ihres, hkH]

/-- The index groups produced by the greedy loop, singleton completion and
empty-group removal form a partition of the first n indices, and respect the
size cap. -/
theorem greedyGroups_partition (n : Nat) (pairs : List (Nat × Nat))
    (hlt : ∀ p ∈ pairs, p.1 < n ∧ p.2 < n) :
    (∀ k, k < n → (greedyGroups n pairs).countP (fun G => decide (k ∈ G)) = 1) ∧
    (∀ G ∈ greedyGroups n pairs, G.card ≤ MAX_GROUP_SIZE ∧ ∀ k ∈ G, k < n) := by
  have inv := gInv_greedyLoop n pairs hlt
  unfold greedyGroups
  constructor
  · intro k hk
    rw [List.countP_filter]
    have hcongr : ∀ G ∈ (greedyLoop pairs).groups ++
        (((List.range n).filter (fun i => ((greedyLoop pairs).assign i).isNone)).map
          (fun i => ({i} : Finset Nat))),
        ((decide (k ∈ G)) && (decide (G ≠ ∅))) = true ↔ (decide (k ∈ G)) = true := by
      intro G _
      constructor
      · intro h; exact ((Bool.and_eq_true _ _).mp h).1
      · intro h
        rw [h, Bool.true_and, decide_eq_true_eq]
        intro he
        rw [he] at h
        exact absurd (of_decide_eq_true h) (Finset.not_mem_empty k)
    rw [List.countP_congr hcongr, List.countP_append, List.countP_map]
    simp only [Function.comp_def]
    have hsingle : ∀ i : Nat,
        (decide (k ∈ ({i} : Finset Nat))) = (decide (i = k)) := by
      intro i
      by_cases h : i = k
      · subst h; simp
      · have h1 : ¬ k = i := fun he => h he.symm
        simp [Finset.mem_singleton, h, h1]
    cases hA : (greedyLoop pairs).assign k with
    | some g =>
      obtain ⟨G, hget, hkG⟩ := (inv.coh k g).mp hA
      have h1 : (greedyLoop pairs).groups.countP (fun G2 => decide (k ∈ G2)) = 1 := by
        apply countP_mem_eq_one_of_unique _ k g G hget hkG
        intro g2 G2 hg2 hk2
        have h2 := (inv.coh k g2).mpr ⟨G2, hg2, hk2⟩
        rw [hA] at h2
        injection h2 with h3
        exact h3.symm
      have h2 : (((List.range n).filter
          (fun i => ((greedyLoop pairs).assign i).isNone)).countP
          (fun i => decide (k ∈ ({i} : Finset Nat)))) = 0 := by
        apply List.countP_eq_zero.mpr
        intro i hi
        rw [hsingle i, decide_eq_true_eq]
        intro he
        subst he
        have := (List.mem_filter.mp hi).2
        rw [hA] at this
        exact absurd this (by simp)
      omega
    | none =>
      have h1 : (greedyLoop pairs).groups.countP (fun G2 => decide (k ∈ G2)) = 0 := by
        apply List.countP_eq_zero.mpr
        intro G2 hG2
        obtain ⟨m, hm⟩ := List.get?_of_mem hG2
        rw [decide_eq_true_eq]
        intro hk2
        have h2 := (inv.coh k m).mpr ⟨G2, hm, hk2⟩
        rw [hA] at h2
        exact absurd h2 (by simp)
      have h2 : (((List.range n).filter
          (fun i => ((greedyLoop pairs).assign i).isNone)).countP
          (fun i => decide (k ∈ ({i} : Finset Nat)))) = 1 := by
        have hcg : ∀ i ∈ ((List.range n).filter
            (fun i => ((greedyLoop pairs).assign i).isNone)),
            (decide (k ∈ ({i} : Finset Nat))) = true ↔ (i == k) = true := by
          intro i _
          rw [hsingle i]
          simp
        rw [List.countP_congr hcg]
        have hmem : k ∈ (List.range n).filter
            (fun i => ((greedyLoop pairs).assign i).isNone) := by
          rw [List.mem_filter]
          exact ⟨List.mem_range.mpr hk, by rw [hA]; rfl⟩
        have hnd2 : ((List.range n).filter
            (fun i => ((greedyLoop pairs).assign i).isNone)).Nodup :=
          (List.nodup_range n).filter _
        exact List.count_eq_one_of_mem hnd2 hmem
      omega
  · intro G hG
    have hG2 := (List.mem_filter.mp hG).1
    rcases List.mem_append.mp hG2 with h | h
    · exact ⟨inv.card_le G h, inv.mem_lt G h⟩
    · obtain ⟨i, hi, rfl⟩ := List.mem_map.mp h
      refine ⟨by rw [Finset.card_singleton]; decide, ?_⟩
      intro k hkmem
      rw [Finset.mem_singleton.mp hkmem]
      exact List.mem_range.mp (List.mem_filter.mp hi).1

theorem sortedSimPairs_lt (arts : List GArticle) :
    ∀ p ∈ sortedSimPairs arts, p.1 < arts.length ∧ p.2 < arts.length := by
  intro p hp
  unfold sortedSimPairs at hp
  obtain ⟨q, hq, rfl⟩ := List.mem_map.mp hp
  have hq2 : q ∈ scoredPairs arts := (List.mergeSort_perm _ _).subset hq
  unfold scoredPairs at hq2
  have hq3 := (List.mem_filter.mp hq2).1
  obtain ⟨i, hi, hq4⟩ := List.mem_bind.mp hq3
  obtain ⟨j, hj, rfl⟩ := List.mem_map.mp hq4
  exact ⟨List.mem_range.mp hi, List.mem_range.mp (List.mem_filter.mp hj).1⟩

/-- C2: no group returned by groupArticles holds more than MAX_GROUP_SIZE = 10
articles: new groups start at 2 members, joins require fewer than 10 members and
merges require a combined size of at most 10. -/
theorem groupArticles_size_cap (arts : List GArticle) :
    (groupArticles arts).all (fun g => decide (g.card ≤ MAX_GROUP_SIZE)) = true := by
  unfold groupArticles
  by_cases h0 : arts.length = 0
  · rw [if_pos h0]; rfl
  · rw [if_neg h0]
    by_cases h1 : arts.length = 1
    · rw [if_pos h1]
      simp [MAX_GROUP_SIZE]
    · rw [if_neg h1]
      rw [List.all_eq_true]
      intro g hg
      obtain ⟨G, hGmem, rfl⟩ := List.mem_map.mp hg
      have hGmem2 : G ∈ greedyGroups arts.length (sortedSimPairs arts) :=
        (List.mergeSort_perm _ _).subset hGmem
      have hcap := ((greedyGroups_partition arts.length (sortedSimPairs arts)
        (sortedSimPairs_lt arts)).2 G hGmem2).1
      rw [decide_eq_true_eq]
      exact le_trans Finset.card_image_le hcap

/-- C10: with pairwise distinct article ids, the groups returned by groupArticles
partition the input: each input article id lies in exactly one returned group, and
every id in a returned group is the id of some input article. -/
theorem groupArticles_partition (arts : List GArticle)
    (hnd : (arts.map GArticle.id).Nodup) :
    (∀ i (h : i < arts.length),
      (groupArticles arts).countP
        (fun g => decide ((arts.get ⟨i, h⟩).id ∈ g)) = 1) ∧
    (∀ g ∈ groupArticles arts, ∀ x ∈ g, ∃ i, ∃ h : i < arts.length,
      (arts.get ⟨i, h⟩).id = x) := by
  have hgetA : ∀ (i : Nat) (h : i < arts.length), getA arts i = arts.get ⟨i, h⟩ := by
    intro i h
    unfold getA
    rw [List.get?_eq_get h]
    rfl
  have hinj : ∀ (i j : Nat) (hi : i < arts.length) (hj : j < arts.length),
      (arts.get ⟨i, hi⟩).id = (arts.get ⟨j, hj⟩).id → i = j := by
    intro i j hi hj hid
    have hi2 : i < (arts.map GArticle.id).length := by rw [List.length_map]; exact hi
    have hj2 : j < (arts.map GArticle.id).length := by rw [List.length_map]; exact hj
    have hmapeq : (arts.map GArticle.id).get ⟨i, hi2⟩ =
        (arts.map GArticle.id).get ⟨j, hj2⟩ := by
      rw [List.get_map, List.get_map]
      exact hid
    have := (List.Nodup.get_inj_iff hnd).mp hmapeq
    exact Fin.val_eq_of_eq this
  unfold groupArticles
  by_cases h0 : arts.length = 0
  · rw [if_pos h0]
    exact ⟨fun i h => absurd h (by omega), fun g hg => absurd hg (List.not_mem_nil g)⟩
  · rw [if_neg h0]
    by_cases h1 : arts.length = 1
    · rw [if_pos h1]
      constructor
      · intro i h
        obtain rfl : i = 0 := by omega
        rw [List.countP_cons, List.countP_nil]
        rw [hgetA 0 h]
        simp
      · intro g hg
        obtain rfl : g = {(getA arts 0).id} := List.mem_singleton.mp hg
        intro x hx
        refine ⟨0, by omega, ?_⟩
        rw [← hgetA 0 (by omega)]
        exact (Finset.mem_singleton.mp hx).symm
    · rw [if_neg h1]
      have hpart := greedyGroups_partition arts.length (sortedSimPairs arts)
        (sortedSimPairs_lt arts)
      constructor
      · intro i h
        rw [List.countP_map]
        rw [(List.mergeSort_perm (greedyGroups arts.length (sortedSimPairs arts))
          _).countP_eq]
        have hcongr : ∀ G ∈ greedyGroups arts.length (sortedSimPairs arts),
            (((fun g => decide ((arts.get ⟨i, h⟩).id ∈ g)) ∘
              (fun g => g.image (fun k => (getA arts k).id))) G) = true ↔
            (decide (i ∈ G)) = true := by
          intro G hGmem
          simp only [Function.comp_apply, decide_eq_true_eq]
          have hGlt := (hpart.2 G hGmem).2
          constructor
          · intro hmem
            obtain ⟨k, hkG, hkid⟩ := Finset.mem_image.mp hmem
            have hklt : k < arts.length := hGlt k hkG
            rw [hgetA k hklt] at hkid
            have := hinj k i hklt h hkid
            rw [← this]
            exact hkG
          · intro hiG
            apply Finset.mem_image.mpr
            exact ⟨i, hiG, by rw [hgetA i h]⟩
        rw [List.countP_congr hcongr]
        exact hpart.1 i h
      · intro g hg x hx
        obtain ⟨G, hGmem, rfl⟩ := List.mem_map.mp hg
        have hGmem2 : G ∈ greedyGroups arts.length (sortedSimPairs arts) :=
          (List.mergeSort_perm _ _).subset hGmem
        obtain ⟨k, hkG, hkid⟩ := Finset.mem_image.mp hx
        have hklt : k < arts.length := ((hpart.2 G hGmem2).2) k hkG
        refine ⟨k, hklt, ?_⟩
        rw [← hgetA k hklt]
        exact hkid

/-- Closed witness for groupArticles_partition at two concretely distinct articles. -/
theorem groupArticles_partition_witness :
    (([⟨"a", "t1", none, [], [], []⟩, ⟨"b", "t2", none, [], [], []⟩] :
        List GArticle).map GArticle.id).Nodup ∧
    (0 < 2) ∧
    (groupArticles [⟨"a", "t1", none, [], [], []⟩, ⟨"b", "t2", none, [], [], []⟩]).countP
      (fun g => decide ((([⟨"a", "t1", none, [], [], []⟩, ⟨"b", "t2", none, [], [], []⟩] :
        List GArticle).get ⟨0, by decide⟩).id ∈ g)) = 1 :=
  ⟨by decide, by decide,
    (groupArticles_partition
      [⟨"a", "t1", none, [], [], []⟩, ⟨"b", "t2", none, [], [], []⟩]
      (by decide)).1 0 (by decide)⟩

theorem weightedJaccard_erase (w : String → ℝ) (t : String) (A B : Finset String)
    (hw : w t = 0) (hA : t ∈ A) (hB : t ∈ B) :
    weightedJaccard w A B = weightedJaccard w (A.erase t) (B.erase t) := by
  unfold weightedJaccard
  have htU : t ∈ A ∪ B := Finset.mem_union_left _ hA
  have hUne : A ∪ B ≠ ∅ := by
    intro he
    rw [he] at htU
    exact absurd htU (Finset.not_mem_empty t)
  rw [if_neg hUne]
  have hU2 : A.erase t ∪ B.erase t = (A ∪ B).erase t :=
    (Finset.erase_union_distrib A B t).symm
  have hI2 : A.erase t ∩ B.erase t = (A ∩ B).erase t := by
    rw [Finset.erase_inter, Finset.inter_erase, Finset.erase_idem]
  have hsumU : ((A ∪ B).erase t).sum w = (A ∪ B).sum w := Finset.sum_erase _ hw
  have hsumI : ((A ∩ B).erase t).sum w = (A ∩ B).sum w := Finset.sum_erase _ hw
  by_cases hU2e : A.erase t ∪ B.erase t = ∅
  · rw [if_pos hU2e]
    rw [hU2] at hU2e
    have hzero : (A ∪ B).sum w = 0 := by
      rw [← hsumU, hU2e, Finset.sum_empty]
    rw [if_neg (by rw [hzero]; exact lt_irrefl 0)]
  · rw [if_neg hU2e, hU2, hI2, hsumU, hsumI]

/-- C7: over a corpus of at least 2 articles, the IDF weight of a present term is
log(N/df)/log(N); a term in every article has weight 0 and contributes nothing to any
weighted-Jaccard similarity (erasing it from both sides changes nothing), while a term
in exactly one article has weight 1. -/
theorem computeIDF_spec (docs : List (Finset String)) (t : String)
    (hN : 2 ≤ docs.length) :
    (docFreq docs t = docs.length →
      idfOf docs t = some 0 ∧ idfWeight docs t = 0 ∧
      ∀ A B : Finset String, t ∈ A → t ∈ B →
        weightedJaccard (idfWeight docs) A B =
        weightedJaccard (idfWeight docs) (A.erase t) (B.erase t)) ∧
    (docFreq docs t = 1 → idfOf docs t = some 1) := by
  have hNpos : (0 : ℝ) < (docs.length : ℝ) := by
    have : 0 < docs.length := by omega
    exact_mod_cast this
  constructor
  · intro hdf
    have hidf : idfOf docs t = some 0 := by
      unfold idfOf
      rw [if_pos (by omega), hdf]
      congr 1
      rw [div_self (ne_of_gt hNpos), Real.log_one, zero_div]
    have hwt : idfWeight docs t = 0 := by
      unfold idfWeight
      rw [hidf]
      rfl
    exact ⟨hidf, hwt, fun A B hA hB =>
      weightedJaccard_erase (idfWeight docs) t A B hwt hA hB⟩
  · intro hdf
    unfold idfOf
    rw [if_pos (by omega), hdf]
    congr 1
    rw [Nat.cast_one, div_one, div_self]
    apply ne_of_gt
    apply Real.log_pos
    have : 1 < docs.length := by omega
    exact_mod_cast this

/-- Closed witness for computeIDF_spec: a two-article corpus where the term is in
both articles. -/
theorem computeIDF_spec_witness :
    (2 ≤ ([{"a"}, {"a", "b"}] : List (Finset String)).length) ∧
    (docFreq [{"a"}, {"a", "b"}] "a" = ([{"a"}, {"a", "b"}] :
      List (Finset String)).length) ∧
    idfOf [{"a"}, {"a", "b"}] "a" = some 0 :=
  ⟨by decide, by decide,
    ((computeIDF_spec [{"a"}, {"a", "b"}] "a" (by decide)).1 (by decide)).1⟩

end ClearFeed
